import Mathlib

/-!
Box blur: a shallow embedding of `box_blur.cpp`

The development models the three functions of `src/box_blur.cpp` that carry the
image data: the de-interleaving loop of `load_image`, the re-interleaving loop of
`write_image`, and `apply_box_blur`.

Modelling conventions.

* A `vector<uint8_t>` is a `List Nat`; a `single_channel_image_t` is a list of rows.
* `int` variables are `Int`.  Signed arithmetic that leaves the 32-bit range is
  undefined in C++; the accumulator `sum` and the product `filter_size * filter_size`
  are range-checked and report `Fault.overflow`.  Sizes, loop counters and buffer
  offsets are taken to fit an `int`, as they do for every buffer the decoder returns.
* `operator[]` with an index outside the vector is undefined in C++ and is reported
  as `Fault.outOfRange`; the run stops at the first such access.  This is the reading
  of the definitions in `BoxBlur`.
* The namespace `BoxBlur.Unchecked` holds a second reading of `apply_box_blur` and of
  the channel loop, the one of a build without bounds checks: an element access beyond
  the end of an existing row touches the memory after the row.  A read there yields a
  byte that is not part of the grid and is given by a parameter `beyond`; a write there
  leaves the grid as it is.  The run goes on after such an access.  Everything else is
  as in the first reading.
* A `for` loop whose counter is only changed by its own increment runs a number of
  iterations that is known when the loop is entered; the loop functions recurse on
  that number and carry the counter along, so that counters declared outside a loop
  keep their value from one entry of the loop to the next, as in the source.
-/

namespace BoxBlur

/-! ## Data model -/

/-- Source: `typedef vector<vector<uint8_t>> single_channel_image_t;` -/
abbrev single_channel_image_t := List (List Nat)

/-- Source: `typedef array<single_channel_image_t, NUM_CHANNELS> image_t;` -/
abbrev image_t := List single_channel_image_t

/-- Source: `static const int FILTER_SIZE = 5;` -/
def FILTER_SIZE : Int := 5

/-- Source: `static const int NUM_CHANNELS = 3;` -/
def NUM_CHANNELS : Nat := 3

/-- The ways in which a run can leave the behaviour C++ defines. -/
inductive Fault
  | outOfRange
  | overflow
  | divByZero
  deriving DecidableEq, Repr

/-- Result of a call of `apply_box_blur`: either the call returns its `result` vector,
or it reaches an undefined operation; in that case the value of `result` at that
moment is recorded (empty when `result` was not yet created). -/
inductive Outcome
  | returned (result : single_channel_image_t)
  | undefined (fault : Fault) (result : single_channel_image_t)
  deriving DecidableEq, Repr

/-- The `result` vector carried by an outcome. -/
def Outcome.grid : Outcome → single_channel_image_t
  | .returned g => g
  | .undefined _ g => g

/-- A grid is rectangular with `H` rows of `W` samples. -/
def Rect (H W : Nat) (image : single_channel_image_t) : Prop :=
  image.length = H ∧ ∀ row ∈ image, row.length = W

instance (H W : Nat) (image : single_channel_image_t) : Decidable (Rect H W image) := by
  unfold Rect; infer_instance

/-- Every sample of the grid is an 8-bit value. -/
def Samples8 (image : single_channel_image_t) : Prop :=
  ∀ row ∈ image, ∀ x ∈ row, x < 256

instance (image : single_channel_image_t) : Decidable (Samples8 image) := by
  unfold Samples8; infer_instance

/-- The grid of `H` rows of `W` zero samples: `single_channel_image_t(H, vector<uint8_t>(W))`. -/
def zeros (H W : Nat) : single_channel_image_t :=
  List.replicate H (List.replicate W 0)

/-! ## Element access -/

/-- Element `xs[i]` for an `int` index: defined only for `0 ≤ i < xs.size()`. -/
def elemAt {α : Type} (xs : List α) (i : Int) : Option α :=
  if 0 ≤ i then xs[i.toNat]? else none

/-- Read `image[r][c]`. -/
def readSample (image : single_channel_image_t) (r c : Int) : Except Fault Nat :=
  match elemAt image r with
  | none => .error .outOfRange
  | some row =>
    match elemAt row c with
    | none => .error .outOfRange
    | some v => .ok v

/-- Write `result[r][c] = v`; `none` when the position is outside the grid. -/
def writeSample (result : single_channel_image_t) (r c : Int) (v : Nat) :
    Option single_channel_image_t :=
  match elemAt result r with
  | none => none
  | some row =>
    match elemAt row c with
    | none => none
    | some _ => some (result.set r.toNat (row.set c.toNat v))

/-- Largest value of a 32-bit `int`. -/
def INT_MAX : Int := 2147483647

/-- Smallest value of a 32-bit `int`. -/
def INT_MIN : Int := -2147483648

/-- The value of an `int` expression: defined only inside the 32-bit range. -/
def checkedInt (x : Int) : Except Fault Int :=
  if INT_MIN ≤ x ∧ x ≤ INT_MAX then .ok x else .error .overflow

/-- Conversion of an `int` to `uint8_t`: reduction modulo 256. -/
def toUInt8 (x : Int) : Nat := (x % 256).toNat

/-! ## `apply_box_blur` -/

/-- Lines 104-107: `for (filter_col; filter_col < (pad + 1); filter_col += 1)`.
The first argument is the number of iterations left; the loop returns the updated
`sum` and `filter_col`. -/
def filter_col_loop (image : single_channel_image_t) (initial_row initial_col filter_row : Int) :
    Nat → Int → Int → Except Fault (Int × Int)
  | 0, sum, filter_col => .ok (sum, filter_col)
  | n + 1, sum, filter_col =>
    match readSample image (initial_row + filter_row) (initial_col + filter_col) with
    | .error f => .error f
    | .ok v =>
      match checkedInt (sum + (v : Int)) with
      | .error f => .error f
      | .ok sum1 => filter_col_loop image initial_row initial_col filter_row n sum1 (filter_col + 1)

/-- Lines 102-108: `for (filter_row; filter_row < (pad + 1); filter_row += 1)`.
`filter_col` is declared outside this loop (line 101) and is not reset between its
iterations: each entry of the inner loop starts from the value the previous one left. -/
def filter_row_loop (image : single_channel_image_t) (pad initial_row initial_col : Int) :
    Nat → Int → Int → Int → Except Fault (Int × Int)
  | 0, _, sum, filter_col => .ok (sum, filter_col)
  | n + 1, filter_row, sum, filter_col =>
    match filter_col_loop image initial_row initial_col filter_row
        (pad + 1 - filter_col).toNat sum filter_col with
    | .error f => .error f
    | .ok (sum1, filter_col1) =>
      filter_row_loop image pad initial_row initial_col n (filter_row + 1) sum1 filter_col1

/-- Lines 99-108: the value of `sum` after the two window loops, started with
`sum = 0`, `filter_row = -pad`, `filter_col = -pad`. -/
def window_sum (image : single_channel_image_t) (pad initial_row initial_col : Int) :
    Except Fault Int :=
  match filter_row_loop image pad initial_row initial_col
      (pad + 1 - (-pad)).toNat (-pad) 0 (-pad) with
  | .error f => .error f
  | .ok (sum, _) => .ok sum

/-- Lines 99-110: the body of the column loop at `(initial_row, initial_col)`. -/
def pixel_body (image : single_channel_image_t) (filter_size pad initial_row initial_col : Int)
    (result : single_channel_image_t) : Except (Fault × single_channel_image_t) single_channel_image_t :=
  match window_sum image pad initial_row initial_col with
  | .error f => .error (f, result)
  | .ok sum =>
    match checkedInt (filter_size * filter_size) with
    | .error f => .error (f, result)
    | .ok d =>
      if d = 0 then .error (.divByZero, result)
      else
        match writeSample result initial_row initial_col (toUInt8 (sum.tdiv d)) with
        | none => .error (.outOfRange, result)
        | some result1 => .ok result1

/-- Lines 97-111: `for (initial_col; initial_col <= (width - pad); initial_col += 1)`.
Returns `result` and the value of `initial_col` when the loop is left. -/
def col_loop (image : single_channel_image_t) (filter_size pad initial_row : Int) :
    Nat → Int → single_channel_image_t →
    Except (Fault × single_channel_image_t) (single_channel_image_t × Int)
  | 0, initial_col, result => .ok (result, initial_col)
  | n + 1, initial_col, result =>
    match pixel_body image filter_size pad initial_row initial_col result with
    | .error e => .error e
    | .ok result1 => col_loop image filter_size pad initial_row n (initial_col + 1) result1

/-- Lines 95-112: `for (initial_row; initial_row <= (height - pad); initial_row += 1)`.
`initial_col` is declared outside this loop (line 93) and is not reset between rows. -/
def row_loop (image : single_channel_image_t) (filter_size width pad : Int) :
    Nat → Int → Int → single_channel_image_t →
    Except (Fault × single_channel_image_t) (single_channel_image_t × Int)
  | 0, _, initial_col, result => .ok (result, initial_col)
  | n + 1, initial_row, initial_col, result =>
    match col_loop image filter_size pad initial_row
        (width - pad + 1 - initial_col).toNat initial_col result with
    | .error e => .error e
    | .ok (result1, initial_col1) =>
      row_loop image filter_size width pad n (initial_row + 1) initial_col1 result1

/-- Lines 79-132: `apply_box_blur(image, filter_size)`. -/
def apply_box_blur (image : single_channel_image_t) (filter_size : Int) : Outcome :=
  match image with
  | [] => .undefined .outOfRange []
  | row0 :: _ =>
    let width : Int := row0.length
    let height : Int := image.length
    let result := zeros image.length row0.length
    let pad := filter_size.tdiv 2
    match row_loop image filter_size width pad (height - pad + 1 - pad).toNat pad pad result with
    | .error (f, g) => .undefined f g
    | .ok (g, _) => .returned g

/-! ## `load_image` and `write_image` -/

/-- A counting loop `for (int i = i0; i < i0 + n; ++i) body`, the first argument being
the number of iterations left. -/
def forFrom {σ ε : Type} (body : Nat → σ → Except ε σ) : Nat → Nat → σ → Except ε σ
  | 0, _, s => .ok s
  | n + 1, i, s =>
    match body i s with
    | .error e => .error e
    | .ok s1 => forFrom body n (i + 1) s1

/-- Read `image[c][y][x]`. -/
def read3 (image : image_t) (c y x : Nat) : Option Nat :=
  match image[c]? with
  | none => none
  | some g =>
    match g[y]? with
    | none => none
    | some row => row[x]?

/-- Write `image[c][y][x] = v`; `none` when the position does not exist. -/
def write3 (image : image_t) (c y x v : Nat) : Option image_t :=
  match image[c]? with
  | none => none
  | some g =>
    match g[y]? with
    | none => none
    | some row => if x < row.length then some (image.set c (g.set y (row.set x v))) else none

/-- Line 47: `result[c][y][x] = data[(y * width + x) * NUM_CHANNELS + c];` -/
def load_sample (data : List Nat) (width y x c : Nat) (result : image_t) : Except Fault image_t :=
  match data[(y * width + x) * NUM_CHANNELS + c]? with
  | none => .error .outOfRange
  | some v =>
    match write3 result c y x v with
    | none => .error .outOfRange
    | some result1 => .ok result1

/-- Lines 35-50 of `load_image`: the decoder's outputs `width`, `height` and `data` are
parameters; the three grids are created with `height` rows of `width` samples and
filled from the interleaved buffer. -/
def load_image (width height : Nat) (data : List Nat) : Except Fault image_t :=
  forFrom (fun y result =>
    forFrom (fun x result =>
      forFrom (fun c result => load_sample data width y x c result) NUM_CHANNELS 0 result)
      width 0 result)
    height 0 (List.replicate NUM_CHANNELS (zeros height width))

/-- Line 69: `data[(y * width + x) * channels + c] = image[c][y][x];` -/
def store_sample (image : image_t) (width channels y x c : Nat) (data : List Nat) :
    Except Fault (List Nat) :=
  match read3 image c y x with
  | none => .error .outOfRange
  | some v =>
    if (y * width + x) * channels + c < data.length then
      .ok (data.set ((y * width + x) * channels + c) v)
    else .error .outOfRange

/-- Lines 57-72 of `write_image`: the interleaved buffer handed to the encoder.
`height` is `image[0].size()` and `width` is `image[0][0].size()`, both read from
the image itself. -/
def write_image (image : image_t) : Except Fault (List Nat) :=
  let channels := image.length
  match image[0]? with
  | none => .error .outOfRange
  | some g0 =>
    let height := g0.length
    match g0[0]? with
    | none => .error .outOfRange
    | some row0 =>
      let width := row0.length
      forFrom (fun y data =>
        forFrom (fun x data =>
          forFrom (fun c data => store_sample image width channels y x c data) channels 0 data)
          width 0 data)
        height 0 (List.replicate (height * width * channels) 0)

/-- Lines 162-169 of `main` without the filter: decode adaptation followed directly by
encode adaptation. -/
def roundtrip (width height : Nat) (data : List Nat) : Except Fault (List Nat) :=
  match load_image width height data with
  | .error f => .error f
  | .ok image => write_image image

/-! ## `apply_box_blur` without bounds checks -/

namespace Unchecked

/-- Read `image[r][c]` without a bounds check on the column: beyond the end of row `r`
the read yields the byte `beyond r c` found there.  A row that does not exist cannot be
read at all. -/
def readSample (beyond : Int → Int → Nat) (image : single_channel_image_t) (r c : Int) :
    Except Fault Nat :=
  match elemAt image r with
  | none => .error .outOfRange
  | some row =>
    match elemAt row c with
    | none => .ok (beyond r c % 256)
    | some v => .ok v

/-- Write `result[r][c] = v` without a bounds check on the column: beyond the end of row
`r` the byte lands after the row and `result` keeps its samples.  `none` when row `r`
does not exist. -/
def writeSample (result : single_channel_image_t) (r c : Int) (v : Nat) :
    Option single_channel_image_t :=
  match elemAt result r with
  | none => none
  | some row =>
    match elemAt row c with
    | none => some result
    | some _ => some (result.set r.toNat (row.set c.toNat v))

/-- Lines 104-107, as `BoxBlur.filter_col_loop`, with the unchecked read. -/
def filter_col_loop (beyond : Int → Int → Nat) (image : single_channel_image_t)
    (initial_row initial_col filter_row : Int) : Nat → Int → Int → Except Fault (Int × Int)
  | 0, sum, filter_col => .ok (sum, filter_col)
  | n + 1, sum, filter_col =>
    match readSample beyond image (initial_row + filter_row) (initial_col + filter_col) with
    | .error f => .error f
    | .ok v =>
      match checkedInt (sum + (v : Int)) with
      | .error f => .error f
      | .ok sum1 =>
        filter_col_loop beyond image initial_row initial_col filter_row n sum1 (filter_col + 1)

/-- Lines 102-108, as `BoxBlur.filter_row_loop`: `filter_col` is not reset between the
iterations. -/
def filter_row_loop (beyond : Int → Int → Nat) (image : single_channel_image_t)
    (pad initial_row initial_col : Int) : Nat → Int → Int → Int → Except Fault (Int × Int)
  | 0, _, sum, filter_col => .ok (sum, filter_col)
  | n + 1, filter_row, sum, filter_col =>
    match filter_col_loop beyond image initial_row initial_col filter_row
        (pad + 1 - filter_col).toNat sum filter_col with
    | .error f => .error f
    | .ok (sum1, filter_col1) =>
      filter_row_loop beyond image pad initial_row initial_col n (filter_row + 1) sum1
        filter_col1

/-- Lines 99-108, as `BoxBlur.window_sum`. -/
def window_sum (beyond : Int → Int → Nat) (image : single_channel_image_t)
    (pad initial_row initial_col : Int) : Except Fault Int :=
  match filter_row_loop beyond image pad initial_row initial_col
      (pad + 1 - (-pad)).toNat (-pad) 0 (-pad) with
  | .error f => .error f
  | .ok (sum, _) => .ok sum

/-- Lines 99-110, as `BoxBlur.pixel_body`, with the unchecked read and write. -/
def pixel_body (beyond : Int → Int → Nat) (image : single_channel_image_t)
    (filter_size pad initial_row initial_col : Int) (result : single_channel_image_t) :
    Except (Fault × single_channel_image_t) single_channel_image_t :=
  match window_sum beyond image pad initial_row initial_col with
  | .error f => .error (f, result)
  | .ok sum =>
    match checkedInt (filter_size * filter_size) with
    | .error f => .error (f, result)
    | .ok d =>
      if d = 0 then .error (.divByZero, result)
      else
        match writeSample result initial_row initial_col (toUInt8 (sum.tdiv d)) with
        | none => .error (.outOfRange, result)
        | some result1 => .ok result1

/-- Lines 97-111, as `BoxBlur.col_loop`. -/
def col_loop (beyond : Int → Int → Nat) (image : single_channel_image_t)
    (filter_size pad initial_row : Int) :
    Nat → Int → single_channel_image_t →
    Except (Fault × single_channel_image_t) (single_channel_image_t × Int)
  | 0, initial_col, result => .ok (result, initial_col)
  | n + 1, initial_col, result =>
    match pixel_body beyond image filter_size pad initial_row initial_col result with
    | .error e => .error e
    | .ok result1 =>
      col_loop beyond image filter_size pad initial_row n (initial_col + 1) result1

/-- Lines 95-112, as `BoxBlur.row_loop`: `initial_col` is not reset between rows. -/
def row_loop (beyond : Int → Int → Nat) (image : single_channel_image_t)
    (filter_size width pad : Int) :
    Nat → Int → Int → single_channel_image_t →
    Except (Fault × single_channel_image_t) (single_channel_image_t × Int)
  | 0, _, initial_col, result => .ok (result, initial_col)
  | n + 1, initial_row, initial_col, result =>
    match col_loop beyond image filter_size pad initial_row
        (width - pad + 1 - initial_col).toNat initial_col result with
    | .error e => .error e
    | .ok (result1, initial_col1) =>
      row_loop beyond image filter_size width pad n (initial_row + 1) initial_col1 result1

/-- Lines 79-132: `apply_box_blur(image, filter_size)` in a build without bounds checks,
`beyond` giving the bytes found after the rows of `image`. -/
def apply_box_blur (beyond : Int → Int → Nat) (image : single_channel_image_t)
    (filter_size : Int) : Outcome :=
  match image with
  | [] => .undefined .outOfRange []
  | row0 :: _ =>
    let width : Int := row0.length
    let height : Int := image.length
    let result := zeros image.length row0.length
    let pad := filter_size.tdiv 2
    match row_loop beyond image filter_size width pad (height - pad + 1 - pad).toNat pad pad
        result with
    | .error (f, g) => .undefined f g
    | .ok (g, _) => .returned g

/-- One pass of the channel loop of `main` (line 166) in a build without bounds checks;
`beyond i` gives the bytes found after the rows of channel `i`. -/
def filter_channel (beyond : Nat → Int → Int → Nat) (input_image : image_t) (i : Nat)
    (output_image : image_t) : Except Fault image_t :=
  match input_image[i]? with
  | none => .error .outOfRange
  | some channel =>
    match apply_box_blur (beyond i) channel FILTER_SIZE with
    | .undefined f _ => .error f
    | .returned g =>
      if i < output_image.length then .ok (output_image.set i g) else .error .outOfRange

/-- Lines 163-167 of `main` in a build without bounds checks. -/
def filter_channels (beyond : Nat → Int → Int → Nat) (input_image : image_t) :
    Except Fault image_t :=
  forFrom (fun i output_image => filter_channel beyond input_image i output_image)
    NUM_CHANNELS 0 (List.replicate NUM_CHANNELS [])

end Unchecked

/-! ## Positions and the specification's mean -/

/-- Sample at position `(r, c)` of a grid, when the position exists. -/
def sampleAt (g : single_channel_image_t) (r c : Nat) : Option Nat :=
  match g[r]? with
  | none => none
  | some row => row[c]?

/-- The border of the specification (§8): positions with `row < pad`, `row > H - pad`,
`col < pad` or `col > W - pad`. -/
def Border (H W : Nat) (pad : Int) (r c : Nat) : Prop :=
  (r : Int) < pad ∨ (r : Int) > (H : Int) - pad ∨ (c : Int) < pad ∨ (c : Int) > (W : Int) - pad

instance (H W : Nat) (pad : Int) (r c : Nat) : Decidable (Border H W pad r c) := by
  unfold Border; infer_instance

/-- The grid has the input's shape and holds zero on the border. -/
def BorderZero (H W : Nat) (pad : Int) (g : single_channel_image_t) : Prop :=
  Rect H W g ∧ ∀ r c : Nat, r < H → c < W → Border H W pad r c → sampleAt g r c = some 0

/-- The three grids of an image all have `H` rows of `W` samples. -/
def Shape3 (H W : Nat) (image : image_t) : Prop :=
  image.length = NUM_CHANNELS ∧ ∀ g ∈ image, Rect H W g

instance (H W : Nat) (image : image_t) : Decidable (Shape3 H W image) := by
  unfold Shape3; infer_instance

/-- Position `(y, x, c)` comes before `(y0, x0, c0)` in the order in which the loops of
`load_image` and `write_image` visit the samples. -/
def Before (y0 x0 c0 y x c : Nat) : Prop :=
  y < y0 ∨ (y = y0 ∧ (x < x0 ∨ (x = x0 ∧ c < c0)))

/-- State of `load_image` when its loops stand at `(y0, x0, c0)`: the grids have their
shape and every sample visited so far holds its byte of the interleaved buffer. -/
def LoadedBefore (data : List Nat) (W H y0 x0 c0 : Nat) (image : image_t) : Prop :=
  Shape3 H W image ∧
  ∀ c y x, c < NUM_CHANNELS → y < H → x < W → Before y0 x0 c0 y x c →
    read3 image c y x = data[(y * W + x) * NUM_CHANNELS + c]?

/-- State of `write_image` when its loops stand at `(y0, x0, c0)`: the buffer has its
length and every byte visited so far holds its sample. -/
def StoredBefore (image : image_t) (W H y0 x0 c0 : Nat) (data : List Nat) : Prop :=
  data.length = H * W * NUM_CHANNELS ∧
  ∀ c y x, c < NUM_CHANNELS → y < H → x < W → Before y0 x0 c0 y x c →
    data[(y * W + x) * NUM_CHANNELS + c]? = read3 image c y x

/-- Specification (§4.2), in the spec's words: `sum = Σ image[r+dr][c+dc]` for
`dr, dc ∈ [-pad, pad]`, for a centre with `pad ≤ r` and `pad ≤ c`; `none` when a
position of the neighbourhood is outside the grid. -/
def spec_neighbourhood_sum (image : single_channel_image_t) (pad r c : Nat) : Option Nat :=
  (List.range (2 * pad + 1)).foldl (fun acc i =>
    (List.range (2 * pad + 1)).foldl (fun acc j =>
      match acc, sampleAt image (r + i - pad) (c + j - pad) with
      | some s, some v => some (s + v)
      | _, _ => none) acc) (some 0)

/-- Specification (§4.2), in the spec's words: `result[r][c] = sum / (k*k)`. -/
def spec_mean (image : single_channel_image_t) (k r c : Nat) : Option Nat :=
  match spec_neighbourhood_sum image (k / 2) r c with
  | none => none
  | some s => some (s / (k * k))

/-! ## The filtering step of `main` and the rows the filter writes -/

/-- One pass of the channel loop of `main` (line 166): the filter is called on
`input_image[i]` and, when the call returns, its grid is assigned to `output_image[i]`.
A call that reaches an undefined operation ends the run with its fault. -/
def filter_channel (input_image : image_t) (i : Nat) (output_image : image_t) :
    Except Fault image_t :=
  match input_image[i]? with
  | none => .error .outOfRange
  | some channel =>
    match apply_box_blur channel FILTER_SIZE with
    | .undefined f _ => .error f
    | .returned g =>
      if i < output_image.length then .ok (output_image.set i g) else .error .outOfRange

/-- Lines 163-167 of `main`: `output_image[i] = apply_box_blur(input_image[i], FILTER_SIZE)`
for each of the `NUM_CHANNELS` channels, starting from the three empty grids of
`image_t output_image;`.  The run stops at the first call that does not return. -/
def filter_channels (input_image : image_t) : Except Fault image_t :=
  forFrom (fun i output_image => filter_channel input_image i output_image)
    NUM_CHANNELS 0 (List.replicate NUM_CHANNELS [])

/-- Lines 163-169 of `main` for one decoded image: filter every channel, then build the
interleaved buffer of `write_image`. -/
def process_image (input_image : image_t) : Except Fault (List Nat) :=
  match filter_channels input_image with
  | .error f => .error f
  | .ok output_image => write_image output_image

/-- The grid has the input's shape and holds zero in every row other than `row`. -/
def OtherRowsZero (H W : Nat) (row : Int) (g : single_channel_image_t) : Prop :=
  Rect H W g ∧ ∀ r c : Nat, r < H → c < W → (r : Int) ≠ row → sampleAt g r c = some 0

/-- Sum `image[0][first] + ... + image[0][first + count - 1]` of samples of row 0. -/
def top_row_sum (image : single_channel_image_t) (first count : Nat) : Nat :=
  (((image.headD []).drop first).take count).sum

/-- State of row `p` of `result` when the column loop stands at `upto`: every column
`c` with `p ≤ c < upto` whose window lies inside row 0 holds the sum of the `k` samples
`image[0][c - p .. c + p]` divided by `k * k`. -/
def RowPadDone (image : single_channel_image_t) (H W p k : Nat) (upto : Int)
    (g : single_channel_image_t) : Prop :=
  Rect H W g ∧ ∀ c : Nat, p ≤ c → (c : Int) < upto → c + p < W →
    sampleAt g p c = some (top_row_sum image (c - p) k / (k * k))

end BoxBlur

namespace BoxBlur

/-! ## Basic facts about grids -/

theorem rect_zeros (H W : Nat) : Rect H W (zeros H W) := by
  constructor
  · simp [zeros]
  · intro row hrow
    have := List.eq_of_mem_replicate hrow
    simp [this]

theorem sampleAt_zeros {H W r c : Nat} (hr : r < H) (hc : c < W) :
    sampleAt (zeros H W) r c = some 0 := by
  simp [sampleAt, zeros, List.getElem?_replicate, hr, hc]

theorem rect_row_length {H W : Nat} {g : single_channel_image_t} (hg : Rect H W g)
    {r : Nat} {row : List Nat} (h : g[r]? = some row) : row.length = W := by
  apply hg.2
  exact List.mem_iff_getElem?.2 ⟨r, h⟩

/-- A successful write stays inside the grid, keeps its shape and changes one position. -/
theorem writeSample_spec {H W : Nat} {g g1 : single_channel_image_t} {r c : Int} {v : Nat}
    (hg : Rect H W g) (hw : writeSample g r c v = some g1) :
    0 ≤ r ∧ r < H ∧ 0 ≤ c ∧ c < W ∧ Rect H W g1 ∧
    ∀ r1 c1 : Nat, sampleAt g1 r1 c1 =
      if r1 = r.toNat ∧ c1 = c.toNat then some v else sampleAt g r1 c1 := by
  unfold writeSample elemAt at hw
  by_cases hr : 0 ≤ r
  · simp only [hr, if_true] at hw
    cases hrow : g[r.toNat]? with
    | none => simp [hrow] at hw
    | some row =>
      simp only [hrow] at hw
      by_cases hc : 0 ≤ c
      · simp only [hc, if_true] at hw
        cases hv : row[c.toNat]? with
        | none => simp [hv] at hw
        | some v0 =>
          simp only [hv, Option.some.injEq] at hw
          have hrlt : r.toNat < g.length := (List.getElem?_eq_some.1 hrow).1
          have hclt : c.toNat < row.length := (List.getElem?_eq_some.1 hv).1
          have hrowlen : row.length = W := rect_row_length hg hrow
          refine ⟨hr, ?_, hc, ?_, ?_, ?_⟩
          · have := hg.1; omega
          · omega
          · subst hw
            refine ⟨by simp [hg.1], ?_⟩
            intro row1 hmem
            rcases List.mem_or_eq_of_mem_set hmem with h | h
            · exact hg.2 _ h
            · simp [h, hrowlen]
          · intro r1 c1
            subst hw
            unfold sampleAt
            rw [List.getElem?_set]
            by_cases h1 : r.toNat = r1
            · subst h1
              simp only [if_true, hrlt, true_and, hrow]
              rw [List.getElem?_set]
              by_cases h2 : c.toNat = c1
              · subst h2; simp [hclt]
              · have h3 : ¬ c1 = c.toNat := fun h => h2 h.symm
                simp [h2, h3]
            · have h3 : ¬ r1 = r.toNat := fun h => h1 h.symm
              simp [h1, h3]
      · simp [hc] at hw
  · simp [hr] at hw

/-! ## The border invariant of `apply_box_blur` -/

theorem borderZero_zeros (H W : Nat) (pad : Int) : BorderZero H W pad (zeros H W) :=
  ⟨rect_zeros H W, fun _ _ hr hc _ => sampleAt_zeros hr hc⟩

/-- The loop body keeps the invariant when the counters are inside the loop bounds,
and leaves `result` untouched when it stops at an undefined operation. -/
theorem pixel_body_borderZero {H W : Nat} (image : single_channel_image_t)
    {g : single_channel_image_t} {k pad ir ic : Int} (hg : BorderZero H W pad g)
    (hr1 : pad ≤ ir) (hr2 : ir ≤ (H : Int) - pad) (hc1 : pad ≤ ic) (hc2 : ic ≤ (W : Int) - pad) :
    (∀ g1, pixel_body image k pad ir ic g = .ok g1 → BorderZero H W pad g1) ∧
    (∀ f g1, pixel_body image k pad ir ic g = .error (f, g1) → g1 = g) := by
  unfold pixel_body
  cases window_sum image pad ir ic with
  | error f => simp
  | ok sum =>
    cases checkedInt (k * k) with
    | error f => simp
    | ok d =>
      by_cases hd : d = 0
      · simp [hd]
      · simp only [hd, if_false]
        cases hw : writeSample g ir ic (toUInt8 (sum.tdiv d)) with
        | none => simp
        | some g2 =>
          obtain ⟨h0r, _, h0c, _, hrect, hsamp⟩ := writeSample_spec hg.1 hw
          refine ⟨?_, by simp⟩
          intro g1 h1
          simp only [Except.ok.injEq] at h1
          subst h1
          refine ⟨hrect, ?_⟩
          intro r c hr hc hb
          rw [hsamp]
          have hne : ¬ (r = ir.toNat ∧ c = ic.toNat) := by
            rintro ⟨e1, e2⟩
            unfold Border at hb
            omega
          simp only [hne, if_false]
          exact hg.2 r c hr hc hb

theorem col_loop_borderZero {H W : Nat} (image : single_channel_image_t) {k pad ir : Int}
    (hr1 : pad ≤ ir) (hr2 : ir ≤ (H : Int) - pad) :
    ∀ (n : Nat) (ic : Int) (g : single_channel_image_t), BorderZero H W pad g → pad ≤ ic →
      (n = 0 ∨ ic + n ≤ (W : Int) - pad + 1) →
      (∀ g1 ic1, col_loop image k pad ir n ic g = .ok (g1, ic1) →
        BorderZero H W pad g1 ∧ ic1 = ic + n) ∧
      (∀ f g1, col_loop image k pad ir n ic g = .error (f, g1) → BorderZero H W pad g1) := by
  intro n
  induction n with
  | zero =>
    intro ic g hg _ _
    simp only [col_loop]
    refine ⟨?_, by simp⟩
    intro g1 ic1 h
    simp only [Except.ok.injEq, Prod.mk.injEq] at h
    obtain ⟨rfl, rfl⟩ := h
    exact ⟨hg, by simp⟩
  | succ n ih =>
    intro ic g hg hic hn
    have hic2 : ic ≤ (W : Int) - pad := by
      rcases hn with h | h
      · omega
      · push_cast at h; omega
    obtain ⟨hok, herr⟩ := pixel_body_borderZero image (k := k) hg hr1 hr2 hic hic2
    simp only [col_loop]
    cases hb : pixel_body image k pad ir ic g with
    | error e =>
      obtain ⟨f, g2⟩ := e
      have := herr f g2 hb
      subst this
      refine ⟨by simp, ?_⟩
      intro f1 g1 h
      simp only [Except.error.injEq, Prod.mk.injEq] at h
      obtain ⟨_, rfl⟩ := h
      exact hg
    | ok g2 =>
      have hg2 := hok g2 hb
      have hn2 : n = 0 ∨ ic + 1 + (n : Int) ≤ (W : Int) - pad + 1 := by
        rcases hn with h | h
        · omega
        · push_cast at h; right; omega
      obtain ⟨ihok, iherr⟩ := ih (ic + 1) g2 hg2 (by omega) hn2
      refine ⟨?_, iherr⟩
      intro g1 ic1 h
      obtain ⟨h1, h2⟩ := ihok g1 ic1 h
      exact ⟨h1, by push_cast; omega⟩

theorem row_loop_borderZero {H W : Nat} (image : single_channel_image_t) {k pad : Int} :
    ∀ (n : Nat) (ir ic : Int) (g : single_channel_image_t), BorderZero H W pad g →
      pad ≤ ir → (n = 0 ∨ ir + n ≤ (H : Int) - pad + 1) → pad ≤ ic →
      (∀ g1 ic1, row_loop image k W pad n ir ic g = .ok (g1, ic1) → BorderZero H W pad g1) ∧
      (∀ f g1, row_loop image k W pad n ir ic g = .error (f, g1) → BorderZero H W pad g1) := by
  intro n
  induction n with
  | zero =>
    intro ir ic g hg _ _ _
    simp only [row_loop]
    refine ⟨?_, by simp⟩
    intro g1 ic1 h
    simp only [Except.ok.injEq, Prod.mk.injEq] at h
    obtain ⟨rfl, rfl⟩ := h
    exact hg
  | succ n ih =>
    intro ir ic g hg hir hn hic
    have hir2 : ir ≤ (H : Int) - pad := by
      rcases hn with h | h
      · omega
      · push_cast at h; omega
    have hm : (((W : Int) - pad + 1 - ic).toNat = 0 ∨
        ic + (((W : Int) - pad + 1 - ic).toNat : Int) ≤ (W : Int) - pad + 1) := by
      by_cases h : (W : Int) - pad + 1 - ic ≤ 0
      · left; exact Int.toNat_eq_zero.2 h
      · right
        have := Int.toNat_of_nonneg (a := (W : Int) - pad + 1 - ic) (by omega)
        omega
    obtain ⟨cok, cerr⟩ := col_loop_borderZero image (k := k) hir hir2
      ((W : Int) - pad + 1 - ic).toNat ic g hg hic hm
    simp only [row_loop]
    cases hb : col_loop image k pad ir ((W : Int) - pad + 1 - ic).toNat ic g with
    | error e =>
      obtain ⟨f, g2⟩ := e
      refine ⟨by simp, ?_⟩
      intro f1 g1 h
      simp only [Except.error.injEq, Prod.mk.injEq] at h
      obtain ⟨rfl, rfl⟩ := h
      exact cerr _ _ hb
    | ok res =>
      obtain ⟨g2, ic2⟩ := res
      obtain ⟨hg2, hic2⟩ := cok g2 ic2 hb
      have hn2 : n = 0 ∨ ir + 1 + (n : Int) ≤ (H : Int) - pad + 1 := by
        rcases hn with h | h
        · omega
        · push_cast at h; right; omega
      exact ih (ir + 1) ic2 g2 hg2 (by omega) hn2 (by omega)

/-- The `result` vector of every call on a rectangular grid, returned or not, has the
input's shape and a zero border. -/
theorem apply_box_blur_borderZero {H W : Nat} {image : single_channel_image_t} (k : Int)
    (hrect : Rect H W image) : BorderZero H W (k.tdiv 2) (apply_box_blur image k).grid := by
  cases image with
  | nil =>
    have hH : H = 0 := by simpa [Rect] using hrect.1.symm
    subst hH
    refine ⟨by simp [apply_box_blur, Outcome.grid, Rect], ?_⟩
    intro r c hr
    omega
  | cons row0 rest =>
    have hW : row0.length = W := hrect.2 row0 (by simp)
    have hH : (row0 :: rest).length = H := hrect.1
    subst hW
    subst hH
    have hn : (((((row0 :: rest).length : Nat) : Int) - k.tdiv 2 + 1 - k.tdiv 2).toNat = 0 ∨
        k.tdiv 2 + ((((((row0 :: rest).length : Nat) : Int) - k.tdiv 2 + 1 - k.tdiv 2).toNat : Nat) : Int)
          ≤ (((row0 :: rest).length : Nat) : Int) - k.tdiv 2 + 1) := by
      by_cases h : (((row0 :: rest).length : Nat) : Int) - k.tdiv 2 + 1 - k.tdiv 2 ≤ 0
      · left; exact Int.toNat_eq_zero.2 h
      · right
        have := Int.toNat_of_nonneg
          (a := (((row0 :: rest).length : Nat) : Int) - k.tdiv 2 + 1 - k.tdiv 2) (by omega)
        omega
    obtain ⟨rok, rerr⟩ := row_loop_borderZero (row0 :: rest) (k := k)
      (H := (row0 :: rest).length) (W := row0.length)
      _ (k.tdiv 2) (k.tdiv 2) (zeros (row0 :: rest).length row0.length)
      (borderZero_zeros _ _ _) (le_refl _) hn (le_refl _)
    simp only [apply_box_blur]
    cases hb : row_loop (row0 :: rest) k (row0.length : Int) (k.tdiv 2)
        ((((row0 :: rest).length : Nat) : Int) - k.tdiv 2 + 1 - k.tdiv 2).toNat (k.tdiv 2) (k.tdiv 2)
        (zeros (row0 :: rest).length row0.length) with
    | error e =>
      obtain ⟨f, g⟩ := e
      exact rerr f g hb
    | ok res =>
      obtain ⟨g, ic⟩ := res
      exact rok g ic hb

/-! ## Calls in which no loop body runs -/

/-- When the column bound is already passed, no row of the row loop does anything. -/
theorem row_loop_idle (image : single_channel_image_t) (k width pad ic : Int)
    (g : single_channel_image_t) (h : width - pad + 1 - ic ≤ 0) :
    ∀ (n : Nat) (ir : Int), row_loop image k width pad n ir ic g = .ok (g, ic) := by
  intro n
  induction n with
  | zero => intro ir; rfl
  | succ n ih =>
    intro ir
    simp only [row_loop, Int.toNat_eq_zero.2 h, col_loop]
    exact ih (ir + 1)

/-- A non-empty grid that is too short or too narrow for a single loop iteration is
answered with the zero grid. -/
theorem apply_box_blur_idle {H W : Nat} (image : single_channel_image_t) (k : Int)
    (hrect : Rect H W image) (hH : 0 < H)
    (hsmall : (H : Int) - k.tdiv 2 + 1 - k.tdiv 2 ≤ 0 ∨ (W : Int) - k.tdiv 2 + 1 - k.tdiv 2 ≤ 0) :
    apply_box_blur image k = .returned (zeros H W) := by
  cases image with
  | nil =>
    have : H = 0 := by simpa [Rect] using hrect.1.symm
    omega
  | cons row0 rest =>
    have hW : row0.length = W := hrect.2 row0 (by simp)
    have hL : (row0 :: rest).length = H := hrect.1
    subst hW
    subst hL
    simp only [apply_box_blur]
    rcases hsmall with h | h
    · simp only [Int.toNat_eq_zero.2 h, row_loop]
    · rw [row_loop_idle _ _ _ _ _ _ h]

/-! ## The window sum stays in range -/

theorem readSample_lt {image : single_channel_image_t} (hs : Samples8 image) {r c : Int} {v : Nat}
    (h : readSample image r c = .ok v) : v < 256 := by
  unfold readSample elemAt at h
  by_cases hr : 0 ≤ r
  · simp only [hr, if_true] at h
    cases hrow : image[r.toNat]? with
    | none => simp [hrow] at h
    | some row =>
      simp only [hrow] at h
      by_cases hc : 0 ≤ c
      · simp only [hc, if_true] at h
        cases hv : row[c.toNat]? with
        | none => simp [hv] at h
        | some v0 =>
          simp only [hv, Except.ok.injEq] at h
          subst h
          exact hs row (List.mem_iff_getElem?.2 ⟨_, hrow⟩) v0 (List.mem_iff_getElem?.2 ⟨_, hv⟩)
      · simp [hc] at h
  · simp [hr] at h

/-- The only way a read goes wrong is an index outside the grid. -/
theorem readSample_error {image : single_channel_image_t} {r c : Int} {f : Fault}
    (h : readSample image r c = .error f) : f = .outOfRange := by
  unfold readSample at h
  cases h1 : elemAt image r with
  | none => simp only [h1, Except.error.injEq] at h; exact h.symm
  | some row =>
    simp only [h1] at h
    cases h2 : elemAt row c with
    | none => simp only [h2, Except.error.injEq] at h; exact h.symm
    | some v => simp [h2] at h

/-- The inner window loop adds at most 255 per iteration and cannot overflow while
the bound fits a 32-bit `int`. -/
theorem filter_col_loop_bound {image : single_channel_image_t} (hs : Samples8 image)
    (ir ic fr : Int) :
    ∀ (n : Nat) (sum fc : Int), 0 ≤ sum → sum + 255 * (n : Int) ≤ INT_MAX →
      filter_col_loop image ir ic fr n sum fc = .error .outOfRange ∨
      ∃ s, filter_col_loop image ir ic fr n sum fc = .ok (s, fc + n) ∧
        sum ≤ s ∧ s ≤ sum + 255 * (n : Int) := by
  intro n
  induction n with
  | zero =>
    intro sum fc _ _
    right
    exact ⟨sum, by simp [filter_col_loop], le_refl _, by simp⟩
  | succ n ih =>
    intro sum fc h0 hmax
    simp only [filter_col_loop]
    cases hread : readSample image (ir + fr) (ic + fc) with
    | error f =>
      left
      rw [readSample_error hread]
    | ok v =>
      have hv : v < 256 := readSample_lt hs hread
      have hin : INT_MIN ≤ sum + (v : Int) ∧ sum + (v : Int) ≤ INT_MAX := by
        unfold INT_MIN; unfold INT_MAX at hmax ⊢
        push_cast at hmax
        omega
      simp only [checkedInt, hin, and_self, if_true]
      have hmax2 : sum + (v : Int) + 255 * (n : Int) ≤ INT_MAX := by
        unfold INT_MAX at hmax ⊢
        push_cast at hmax
        omega
      rcases ih (sum + v) (fc + 1) (by omega) hmax2 with h | ⟨s, h1, h2, h3⟩
      · left; exact h
      · right
        refine ⟨s, ?_, by omega, by push_cast; omega⟩
        rw [h1]
        congr 2
        push_cast
        omega

/-- The outer window loop: `filter_col` only grows, so over all its iterations the inner
loop reads at most `pad + 1 - filter_col` samples. -/
theorem filter_row_loop_bound {image : single_channel_image_t} (hs : Samples8 image)
    (pad ir ic : Int) :
    ∀ (n : Nat) (fr sum fc : Int), 0 ≤ sum →
      sum + 255 * ((pad + 1 - fc).toNat : Int) ≤ INT_MAX →
      filter_row_loop image pad ir ic n fr sum fc = .error .outOfRange ∨
      ∃ s fc1, filter_row_loop image pad ir ic n fr sum fc = .ok (s, fc1) ∧
        sum ≤ s ∧ s ≤ sum + 255 * ((pad + 1 - fc).toNat : Int) := by
  intro n
  induction n with
  | zero =>
    intro fr sum fc _ _
    right
    exact ⟨sum, fc, by simp [filter_row_loop], le_refl _, by omega⟩
  | succ n ih =>
    intro fr sum fc h0 hmax
    simp only [filter_row_loop]
    rcases filter_col_loop_bound hs ir ic fr (pad + 1 - fc).toNat sum fc h0 hmax with
      h | ⟨s, h1, h2, h3⟩
    · left; rw [h]
    · rw [h1]
      simp only
      have hz : (pad + 1 - (fc + ((pad + 1 - fc).toNat : Int))).toNat = 0 := by
        apply Int.toNat_eq_zero.2
        have := Int.self_le_toNat (pad + 1 - fc)
        omega
      have hmax2 : s + 255 * ((pad + 1 - (fc + ((pad + 1 - fc).toNat : Int))).toNat : Int)
          ≤ INT_MAX := by
        rw [hz]; simp only [Nat.cast_zero, mul_zero, add_zero]
        exact le_trans h3 hmax
      rcases ih (fr + 1) s (fc + ((pad + 1 - fc).toNat : Int)) (by omega) hmax2 with
        h | ⟨s2, fc2, e1, e2, e3⟩
      · left; exact h
      · right
        rw [hz] at e3
        exact ⟨s2, fc2, e1, by omega, by omega⟩

/-- For an odd positive `k` whose `k*k*255` fits a 32-bit `int`, the window sum never
overflows and lies in `[0, k*k*255]`. -/
theorem window_sum_range {image : single_channel_image_t} (hs : Samples8 image) (k : Int)
    (hk : 0 < k) (hodd : k % 2 = 1) (hfit : k * k * 255 < 2 ^ 31) (r c : Int) :
    window_sum image (k.tdiv 2) r c = .error .outOfRange ∨
    ∃ s, window_sum image (k.tdiv 2) r c = .ok s ∧ 0 ≤ s ∧ s ≤ k * k * 255 := by
  have hpad : k.tdiv 2 = k / 2 := Int.tdiv_eq_ediv (by omega) (by omega)
  have hkk : k ≤ k * k := by nlinarith
  have hcount : ((k / 2 + 1 - -(k / 2)).toNat : Int) = k := by
    rw [Int.toNat_of_nonneg (by omega)]; omega
  have hmax : (0 : Int) + 255 * ((k / 2 + 1 - -(k / 2)).toNat : Int) ≤ INT_MAX := by
    rw [hcount]; unfold INT_MAX; norm_num at hfit; omega
  unfold window_sum
  rw [hpad]
  rcases filter_row_loop_bound hs (k / 2) r c (k / 2 + 1 - -(k / 2)).toNat (-(k / 2)) 0
      (-(k / 2)) (le_refl _) hmax with h | ⟨s, fc1, e1, e2, e3⟩
  · left; rw [h]
  · right
    rw [e1]
    refine ⟨s, rfl, e2, ?_⟩
    rw [hcount] at e3
    omega

/-! ## Claims about `apply_box_blur` -/

/-- C1 (evaluation at a failing input). On the 5 x 5 grid below with kernel size 3 the
specification's mean of the full 3 x 3 neighbourhood is 70 at `(1, 1)` and 130 at
`(2, 2)`.  The code stores `(10 + 20 + 30) / 9 = 6` at `(1, 1)` (only row 0 of the
window is summed), leaves `(2, 2)` at 0 (only row `pad` is visited), and stops at the
read of `image[0][5]` in column 4. -/
theorem apply_box_blur_misses_full_mean :
    apply_box_blur
        [[10, 20, 30, 40, 50], [60, 70, 80, 90, 100], [110, 120, 130, 140, 150],
         [160, 170, 180, 190, 200], [210, 220, 230, 240, 250]] 3
      = .undefined .outOfRange
        [[0, 0, 0, 0, 0], [0, 6, 10, 13, 0], [0, 0, 0, 0, 0], [0, 0, 0, 0, 0], [0, 0, 0, 0, 0]] ∧
    spec_mean
        [[10, 20, 30, 40, 50], [60, 70, 80, 90, 100], [110, 120, 130, 140, 150],
         [160, 170, 180, 190, 200], [210, 220, 230, 240, 250]] 3 1 1 = some 70 ∧
    spec_mean
        [[10, 20, 30, 40, 50], [60, 70, 80, 90, 100], [110, 120, 130, 140, 150],
         [160, 170, 180, 190, 200], [210, 220, 230, 240, 250]] 3 2 2 = some 130 := by
  decide

/-- C2. For every rectangular `H x W` grid and every odd positive kernel size `k` with
`pad = k / 2`, every position `(r, c)` of the `result` grid of `apply_box_blur` with
`r < pad`, `r > H - pad`, `c < pad` or `c > W - pad` holds 0, whatever the input holds
there.  The statement covers the grid of every outcome: the returned one, and the one
held when the run stops at an undefined access. -/
theorem apply_box_blur_border_zero (image : single_channel_image_t) (H W : Nat) (k : Int)
    (hrect : Rect H W image) (hk : 0 < k) (hodd : k % 2 = 1)
    (r c : Nat) (hr : r < H) (hc : c < W) (hb : Border H W (k / 2) r c) :
    sampleAt (apply_box_blur image k).grid r c = some 0 := by
  have hpad : k.tdiv 2 = k / 2 := Int.tdiv_eq_ediv (by omega) (by omega)
  have h := apply_box_blur_borderZero k hrect
  rw [hpad] at h
  exact h.2 r c hr hc hb

/-- Witness of C2 on a 3 x 3 grid with kernel size 3, at the corner `(0, 0)`. -/
theorem apply_box_blur_border_zero_witness :
    sampleAt (apply_box_blur [[9, 8, 7], [6, 5, 4], [3, 2, 1]] 3).grid 0 0 = some 0 :=
  apply_box_blur_border_zero [[9, 8, 7], [6, 5, 4], [3, 2, 1]] 3 3 3
    (by decide) (by decide) (by decide) 0 0 (by decide) (by decide) (by decide)

/-- C4 (evaluation at a failing input). On the 3 x 3 grid whose samples all equal 9, with
kernel size 3, the written range is `1 ≤ r, c ≤ 2`; the code stores `27 / 9 = 3` at
`(1, 1)`, not 9, and stops at the read of `image[0][3]` before writing `(1, 2)`. -/
theorem apply_box_blur_uniform_not_preserved :
    apply_box_blur [[9, 9, 9], [9, 9, 9], [9, 9, 9]] 3
      = .undefined .outOfRange [[0, 0, 0], [0, 3, 0], [0, 0, 0]] := by
  decide

/-- C5 (evaluation at a failing input). On the 7 x 7 grid filled with 10, with kernel
size 5, the code stores `50 / 25 = 2` at `(2, 2)`, `(2, 3)` and `(2, 4)`, writes nothing
in rows 3 to 5, and stops at the read of `image[0][7]` in column 5. -/
theorem apply_box_blur_scenario_7x7 :
    apply_box_blur (List.replicate 7 (List.replicate 7 10)) 5
      = .undefined .outOfRange
        [[0, 0, 0, 0, 0, 0, 0], [0, 0, 0, 0, 0, 0, 0], [0, 0, 2, 2, 2, 0, 0],
         [0, 0, 0, 0, 0, 0, 0], [0, 0, 0, 0, 0, 0, 0], [0, 0, 0, 0, 0, 0, 0],
         [0, 0, 0, 0, 0, 0, 0]] := by
  decide

/-- C8 (counterexample). A 1 x 1 grid with kernel size 3 has `H < k` and `W < k`; the call
raises no error and returns the 1 x 1 zero grid. -/
theorem apply_box_blur_small_grid_returns :
    apply_box_blur [[7]] 3 = .returned [[0]] := by
  decide

/-- C8 (amended). For every rectangular `H x W` grid with `H ≥ 1` and every odd positive
kernel size `k` with `H + 1 < k` or `W + 1 < k`, the call performs no check and no
out-of-range access: it returns the `H x W` grid of zeros. -/
theorem apply_box_blur_oversized_kernel (image : single_channel_image_t) (H W : Nat) (k : Int)
    (hrect : Rect H W image) (hH : 0 < H) (hk : 0 < k) (hodd : k % 2 = 1)
    (hbig : (H : Int) + 1 < k ∨ (W : Int) + 1 < k) :
    apply_box_blur image k = .returned (zeros H W) := by
  have hpad : k.tdiv 2 = k / 2 := Int.tdiv_eq_ediv (by omega) (by omega)
  apply apply_box_blur_idle image k hrect hH
  rw [hpad]
  omega

/-- Witness of the amended C8 on a 2 x 5 grid with kernel size 5. -/
theorem apply_box_blur_oversized_kernel_witness :
    apply_box_blur [[1, 2, 3, 4, 5], [6, 7, 8, 9, 10]] 5 = .returned (zeros 2 5) :=
  apply_box_blur_oversized_kernel [[1, 2, 3, 4, 5], [6, 7, 8, 9, 10]] 2 5 5
    (by decide) (by decide) (by decide) (by decide) (by decide)

/-- C9 (counterexample). On the grid of height 0 the call reads `image[0]` to obtain
the width: an out-of-range access, before `result` exists. -/
theorem apply_box_blur_empty_height :
    apply_box_blur [] 5 = .undefined .outOfRange [] := by
  decide

/-- C9 (amended). For every grid of height `H > 0` whose rows all have width 0 and every
odd kernel size `k ≥ 3`, the call completes without an out-of-range access and returns
the `H x 0` grid. -/
theorem apply_box_blur_zero_width (image : single_channel_image_t) (H : Nat) (k : Int)
    (hrect : Rect H 0 image) (hH : 0 < H) (hk : 3 ≤ k) (hodd : k % 2 = 1) :
    apply_box_blur image k = .returned (zeros H 0) := by
  have hpad : k.tdiv 2 = k / 2 := Int.tdiv_eq_ediv (by omega) (by omega)
  apply apply_box_blur_idle image k hrect hH
  rw [hpad]
  right
  push_cast
  omega

/-- Witness of the amended C9 on the grid of two empty rows with kernel size 5. -/
theorem apply_box_blur_zero_width_witness :
    apply_box_blur [[], []] 5 = .returned (zeros 2 0) :=
  apply_box_blur_zero_width [[], []] 2 5 (by decide) (by decide) (by decide) (by decide)

/-- C10. For every grid of 8-bit samples and every odd positive kernel size `k` with
`k*k*255 < 2^31`: the divisor `k*k` is a valid `int`; at every position the window sum
never overflows the 32-bit accumulator; whenever it is computed it lies in `[0, k*k*255]`,
the quotient `sum / (k*k)` lies in `[0, 255]`, and converting the quotient to an 8-bit
sample does not change it. -/
theorem window_sum_fits (image : single_channel_image_t) (k : Int)
    (hs : Samples8 image) (hk : 0 < k) (hodd : k % 2 = 1) (hfit : k * k * 255 < 2 ^ 31)
    (r c : Int) :
    checkedInt (k * k) = .ok (k * k) ∧
    window_sum image (k.tdiv 2) r c ≠ .error .overflow ∧
    ∀ s, window_sum image (k.tdiv 2) r c = .ok s →
      0 ≤ s ∧ s ≤ k * k * 255 ∧ 0 ≤ s.tdiv (k * k) ∧ s.tdiv (k * k) ≤ 255 ∧
      ((toUInt8 (s.tdiv (k * k)) : Nat) : Int) = s.tdiv (k * k) := by
  have hkk : 0 < k * k := by positivity
  refine ⟨?_, ?_, ?_⟩
  · have hin : INT_MIN ≤ k * k ∧ k * k ≤ INT_MAX := by
      unfold INT_MIN INT_MAX
      norm_num at hfit
      constructor <;> omega
    simp [checkedInt, hin]
  · rcases window_sum_range hs k hk hodd hfit r c with h | ⟨s, h, _, _⟩
    · rw [h]; simp
    · rw [h]; simp
  · intro s hsum
    rcases window_sum_range hs k hk hodd hfit r c with h | ⟨s1, h, h0, h1⟩
    · rw [h] at hsum; simp at hsum
    · rw [h] at hsum
      simp only [Except.ok.injEq] at hsum
      subst hsum
      have hdiv : s1.tdiv (k * k) = s1 / (k * k) := Int.tdiv_eq_ediv h0 (le_of_lt hkk)
      have hq0 : 0 ≤ s1 / (k * k) := Int.ediv_nonneg h0 (le_of_lt hkk)
      have hq1 : s1 / (k * k) ≤ 255 := by
        apply Int.ediv_le_of_le_mul hkk
        linarith
      refine ⟨h0, h1, by rw [hdiv]; exact hq0, by rw [hdiv]; exact hq1, ?_⟩
      rw [hdiv]
      unfold toUInt8
      rw [Int.toNat_of_nonneg (Int.emod_nonneg _ (by norm_num))]
      exact Int.emod_eq_of_lt hq0 (by omega)

/-- Witness of C10 on a 3 x 3 grid with kernel size 3 at the centre, where the window
sum is `200 + 255 + 100 = 555`. -/
theorem window_sum_fits_witness :
    window_sum [[200, 255, 100], [6, 5, 4], [3, 2, 1]] ((3 : Int).tdiv 2) 1 1 = .ok 555 ∧
    (checkedInt (3 * 3) = .ok (3 * 3) ∧
     window_sum [[200, 255, 100], [6, 5, 4], [3, 2, 1]] ((3 : Int).tdiv 2) 1 1
       ≠ .error .overflow ∧
     ∀ s, window_sum [[200, 255, 100], [6, 5, 4], [3, 2, 1]] ((3 : Int).tdiv 2) 1 1 = .ok s →
      0 ≤ s ∧ s ≤ 3 * 3 * 255 ∧ 0 ≤ s.tdiv (3 * 3) ∧ s.tdiv (3 * 3) ≤ 255 ∧
      ((toUInt8 (s.tdiv (3 * 3)) : Nat) : Int) = s.tdiv (3 * 3)) :=
  ⟨rfl, window_sum_fits [[200, 255, 100], [6, 5, 4], [3, 2, 1]] 3
    (by decide) (by decide) (by decide) (by decide) 1 1⟩

/-! ## Counting loops and the interleaved layout -/

/-- Invariant rule for the counting loop. -/
theorem forFrom_invariant {σ ε : Type} (body : Nat → σ → Except ε σ) (P : Nat → σ → Prop) :
    ∀ (n i : Nat) (s : σ), P i s →
      (∀ j t, i ≤ j → j < i + n → P j t → ∃ t1, body j t = .ok t1 ∧ P (j + 1) t1) →
      ∃ s1, forFrom body n i s = .ok s1 ∧ P (i + n) s1 := by
  intro n
  induction n with
  | zero =>
    intro i s hP _
    exact ⟨s, rfl, hP⟩
  | succ n ih =>
    intro i s hP hstep
    obtain ⟨t1, hb, hP1⟩ := hstep i s (le_refl _) (by omega) hP
    obtain ⟨s1, h1, h2⟩ := ih (i + 1) t1 hP1
      (fun j t hj1 hj2 hPj => hstep j t (by omega) (by omega) hPj)
    refine ⟨s1, ?_, ?_⟩
    · simp only [forFrom, hb]; exact h1
    · have : i + (n + 1) = i + 1 + n := by omega
      rw [this]; exact h2

/-- Offset of sample `(y, x, c)` in the interleaved buffer is inside the buffer. -/
theorem offset_lt {W H y x c : Nat} (hc : c < NUM_CHANNELS) (hy : y < H) (hx : x < W) :
    (y * W + x) * NUM_CHANNELS + c < H * W * NUM_CHANNELS := by
  unfold NUM_CHANNELS at *
  have h1 : (y + 1) * W ≤ H * W := Nat.mul_le_mul_right W hy
  rw [Nat.add_mul, Nat.one_mul] at h1
  omega

/-- Offsets grow along the visiting order. -/
theorem offset_lt_of_before {W y0 x0 c0 y x c : Nat} (hc : c < NUM_CHANNELS)
    (hx : x < W) (hx0 : x0 < W) (hb : Before y0 x0 c0 y x c) :
    (y * W + x) * NUM_CHANNELS + c < (y0 * W + x0) * NUM_CHANNELS + c0 := by
  unfold NUM_CHANNELS at *
  unfold Before at hb
  rcases hb with h | ⟨rfl, h | ⟨rfl, h⟩⟩
  · have h1 : (y + 1) * W ≤ y0 * W := Nat.mul_le_mul_right W h
    rw [Nat.add_mul, Nat.one_mul] at h1
    omega
  · omega
  · omega

theorem shape3_zeros (H W : Nat) : Shape3 H W (List.replicate NUM_CHANNELS (zeros H W)) := by
  refine ⟨by simp, ?_⟩
  intro g hg
  rw [List.eq_of_mem_replicate hg]
  exact rect_zeros H W

/-- Inside the shape every sample exists. -/
theorem read3_isSome {H W : Nat} {image : image_t} (hs : Shape3 H W image) {c y x : Nat}
    (hc : c < NUM_CHANNELS) (hy : y < H) (hx : x < W) : ∃ v, read3 image c y x = some v := by
  obtain ⟨hlen, hrect⟩ := hs
  have hc1 : c < image.length := by omega
  have hg : Rect H W image[c] := hrect _ (List.getElem_mem hc1)
  have hy1 : y < image[c].length := by rw [hg.1]; exact hy
  have hrow : image[c][y].length = W := hg.2 _ (List.getElem_mem hy1)
  have hx1 : x < image[c][y].length := by omega
  refine ⟨image[c][y][x], ?_⟩
  simp [read3, List.getElem?_eq_getElem hc1, List.getElem?_eq_getElem hy1,
    List.getElem?_eq_getElem hx1]

/-- A write inside the shape succeeds, keeps the shape and changes one sample. -/
theorem write3_spec {H W : Nat} {image : image_t} (hs : Shape3 H W image) {c y x : Nat} (v : Nat)
    (hc : c < NUM_CHANNELS) (hy : y < H) (hx : x < W) :
    ∃ image1, write3 image c y x v = some image1 ∧ Shape3 H W image1 ∧
      ∀ c1 y1 x1, read3 image1 c1 y1 x1 =
        if c1 = c ∧ y1 = y ∧ x1 = x then some v else read3 image c1 y1 x1 := by
  obtain ⟨hlen, hrect⟩ := hs
  have hc1 : c < image.length := by omega
  have hg : Rect H W image[c] := hrect _ (List.getElem_mem hc1)
  have hy1 : y < image[c].length := by rw [hg.1]; exact hy
  have hrow : image[c][y].length = W := hg.2 _ (List.getElem_mem hy1)
  have hx1 : x < image[c][y].length := by omega
  refine ⟨image.set c (image[c].set y (image[c][y].set x v)), ?_, ?_, ?_⟩
  · simp [write3, List.getElem?_eq_getElem hc1, List.getElem?_eq_getElem hy1, hx1]
  · refine ⟨by simp [hlen], ?_⟩
    intro g hmem
    rcases List.mem_or_eq_of_mem_set hmem with h | h
    · exact hrect g h
    · subst h
      refine ⟨by simp [hg.1], ?_⟩
      intro row hmem2
      rcases List.mem_or_eq_of_mem_set hmem2 with h2 | h2
      · exact hg.2 row h2
      · simp [h2, hrow]
  · intro c1 y1 x1
    unfold read3
    rw [List.getElem?_set]
    by_cases e1 : c = c1
    · subst e1
      simp only [if_true, hc1, true_and]
      rw [List.getElem?_set]
      by_cases e2 : y = y1
      · subst e2
        simp only [if_true, hy1, true_and]
        rw [List.getElem?_set]
        by_cases e3 : x = x1
        · subst e3; simp [hx1]
        · have e4 : ¬ x1 = x := fun h => e3 h.symm
          simp [e3, e4, List.getElem?_eq_getElem hc1, List.getElem?_eq_getElem hy1]
      · have e4 : ¬ y1 = y := fun h => e2 h.symm
        simp [e2, e4, List.getElem?_eq_getElem hc1]
    · have e4 : ¬ c1 = c := fun h => e1 h.symm
      simp [e1, e4]

/-! ## `load_image`: the de-interleaving loops -/

theorem before_succ {y0 x0 c0 y x c : Nat} :
    Before y0 x0 (c0 + 1) y x c ↔ Before y0 x0 c0 y x c ∨ (y = y0 ∧ x = x0 ∧ c = c0) := by
  unfold Before
  constructor
  · rintro (h | ⟨h1, h | ⟨h2, h3⟩⟩)
    · exact Or.inl (Or.inl h)
    · exact Or.inl (Or.inr ⟨h1, Or.inl h⟩)
    · by_cases e : c = c0
      · exact Or.inr ⟨h1, h2, e⟩
      · exact Or.inl (Or.inr ⟨h1, Or.inr ⟨h2, by omega⟩⟩)
  · rintro ((h | ⟨h1, h | ⟨h2, h3⟩⟩) | ⟨h1, h2, h3⟩)
    · exact Or.inl h
    · exact Or.inr ⟨h1, Or.inl h⟩
    · exact Or.inr ⟨h1, Or.inr ⟨h2, by omega⟩⟩
    · exact Or.inr ⟨h1, Or.inr ⟨h2, by omega⟩⟩

theorem before_irrefl {y x c : Nat} : ¬ Before y x c y x c := by
  unfold Before
  omega

/-- One execution of line 47 extends the loaded part by the sample it visits. -/
theorem load_sample_step {data : List Nat} {W H y x c : Nat} {image : image_t}
    (hlen : data.length = H * W * NUM_CHANNELS)
    (hc : c < NUM_CHANNELS) (hy : y < H) (hx : x < W)
    (hinv : LoadedBefore data W H y x c image) :
    ∃ image1, load_sample data W y x c image = .ok image1 ∧
      LoadedBefore data W H y x (c + 1) image1 := by
  have hidx : (y * W + x) * NUM_CHANNELS + c < data.length := by
    rw [hlen]; exact offset_lt hc hy hx
  obtain ⟨image1, hw, hshape, hread⟩ :=
    write3_spec hinv.1 (data[(y * W + x) * NUM_CHANNELS + c]) hc hy hx
  refine ⟨image1, ?_, hshape, ?_⟩
  · simp [load_sample, List.getElem?_eq_getElem hidx, hw]
  · intro c1 y1 x1 hc1 hy1 hx1 hb
    rw [hread]
    rcases before_succ.1 hb with h | ⟨rfl, rfl, rfl⟩
    · have hne : ¬ (c1 = c ∧ y1 = y ∧ x1 = x) := by
        rintro ⟨rfl, rfl, rfl⟩
        exact before_irrefl h
      simp only [hne, if_false]
      exact hinv.2 c1 y1 x1 hc1 hy1 hx1 h
    · simp [List.getElem?_eq_getElem hidx]

/-- The channel loop at pixel `(y, x)`. -/
theorem load_channels {data : List Nat} {W H y x : Nat} {image : image_t}
    (hlen : data.length = H * W * NUM_CHANNELS) (hy : y < H) (hx : x < W)
    (hinv : LoadedBefore data W H y x 0 image) :
    ∃ image1, forFrom (fun c result => load_sample data W y x c result) NUM_CHANNELS 0 image
        = .ok image1 ∧ LoadedBefore data W H y (x + 1) 0 image1 := by
  obtain ⟨image1, h1, h2⟩ := forFrom_invariant
    (fun c result => load_sample data W y x c result)
    (fun c result => LoadedBefore data W H y x c result) NUM_CHANNELS 0 image hinv
    (fun j t _ hj hP => load_sample_step hlen (by omega) hy hx hP)
  refine ⟨image1, h1, h2.1, ?_⟩
  intro c1 y1 x1 hc1 hy1 hx1 hb
  apply h2.2 c1 y1 x1 hc1 hy1 hx1
  unfold Before at hb ⊢
  omega

/-- The column loop in row `y`. -/
theorem load_columns {data : List Nat} {W H y : Nat} {image : image_t}
    (hlen : data.length = H * W * NUM_CHANNELS) (hy : y < H)
    (hinv : LoadedBefore data W H y 0 0 image) :
    ∃ image1, forFrom (fun x result =>
        forFrom (fun c result => load_sample data W y x c result) NUM_CHANNELS 0 result)
        W 0 image = .ok image1 ∧ LoadedBefore data W H (y + 1) 0 0 image1 := by
  obtain ⟨image1, h1, h2⟩ := forFrom_invariant
    (fun x result =>
      forFrom (fun c result => load_sample data W y x c result) NUM_CHANNELS 0 result)
    (fun x result => LoadedBefore data W H y x 0 result) W 0 image hinv
    (fun j t _ hj hP => load_channels hlen hy (by omega) hP)
  refine ⟨image1, h1, h2.1, ?_⟩
  intro c1 y1 x1 hc1 hy1 hx1 hb
  apply h2.2 c1 y1 x1 hc1 hy1 hx1
  unfold Before at hb ⊢
  omega

/-- The three loops of `load_image` fill every sample from the interleaved buffer. -/
theorem load_image_loaded {data : List Nat} {W H : Nat}
    (hlen : data.length = H * W * NUM_CHANNELS) :
    ∃ image, load_image W H data = .ok image ∧ LoadedBefore data W H H 0 0 image := by
  have h0 : LoadedBefore data W H 0 0 0 (List.replicate NUM_CHANNELS (zeros H W)) := by
    refine ⟨shape3_zeros H W, ?_⟩
    intro c y x _ _ _ hb
    unfold Before at hb
    omega
  obtain ⟨image1, h1, h2⟩ := forFrom_invariant
    (fun y result =>
      forFrom (fun x result =>
        forFrom (fun c result => load_sample data W y x c result) NUM_CHANNELS 0 result)
        W 0 result)
    (fun y result => LoadedBefore data W H y 0 0 result) H 0 _ h0
    (fun j t _ hj hP => load_columns hlen (by omega) hP)
  refine ⟨image1, h1, ?_⟩
  simpa using h2

/-! ## `write_image`: the re-interleaving loops -/

/-- One execution of line 69 extends the stored part by the byte it visits. -/
theorem store_sample_step {image : image_t} {W H y x c : Nat} {data : List Nat}
    (hshape : Shape3 H W image)
    (hc : c < NUM_CHANNELS) (hy : y < H) (hx : x < W)
    (hinv : StoredBefore image W H y x c data) :
    ∃ data1, store_sample image W NUM_CHANNELS y x c data = .ok data1 ∧
      StoredBefore image W H y x (c + 1) data1 := by
  have hidx : (y * W + x) * NUM_CHANNELS + c < data.length := by
    rw [hinv.1]; exact offset_lt hc hy hx
  obtain ⟨v, hv⟩ := read3_isSome hshape hc hy hx
  refine ⟨data.set ((y * W + x) * NUM_CHANNELS + c) v, ?_, ?_, ?_⟩
  · simp [store_sample, hv, hidx]
  · simp [hinv.1]
  · intro c1 y1 x1 hc1 hy1 hx1 hb
    rcases before_succ.1 hb with h | ⟨rfl, rfl, rfl⟩
    · have hlt := offset_lt_of_before hc1 hx1 hx h
      rw [List.getElem?_set_ne (by omega)]
      exact hinv.2 c1 y1 x1 hc1 hy1 hx1 h
    · rw [List.getElem?_set_self hidx, hv]

/-- The channel loop of `write_image` at pixel `(y, x)`. -/
theorem store_channels {image : image_t} {W H y x : Nat} {data : List Nat}
    (hshape : Shape3 H W image) (hy : y < H) (hx : x < W)
    (hinv : StoredBefore image W H y x 0 data) :
    ∃ data1, forFrom (fun c data => store_sample image W NUM_CHANNELS y x c data)
        NUM_CHANNELS 0 data = .ok data1 ∧ StoredBefore image W H y (x + 1) 0 data1 := by
  obtain ⟨data1, h1, h2⟩ := forFrom_invariant
    (fun c data => store_sample image W NUM_CHANNELS y x c data)
    (fun c data => StoredBefore image W H y x c data) NUM_CHANNELS 0 data hinv
    (fun j t _ hj hP => store_sample_step hshape (by omega) hy hx hP)
  refine ⟨data1, h1, h2.1, ?_⟩
  intro c1 y1 x1 hc1 hy1 hx1 hb
  apply h2.2 c1 y1 x1 hc1 hy1 hx1
  unfold Before at hb ⊢
  omega

/-- The column loop of `write_image` in row `y`. -/
theorem store_columns {image : image_t} {W H y : Nat} {data : List Nat}
    (hshape : Shape3 H W image) (hy : y < H)
    (hinv : StoredBefore image W H y 0 0 data) :
    ∃ data1, forFrom (fun x data =>
        forFrom (fun c data => store_sample image W NUM_CHANNELS y x c data)
          NUM_CHANNELS 0 data) W 0 data = .ok data1 ∧
      StoredBefore image W H (y + 1) 0 0 data1 := by
  obtain ⟨data1, h1, h2⟩ := forFrom_invariant
    (fun x data =>
      forFrom (fun c data => store_sample image W NUM_CHANNELS y x c data) NUM_CHANNELS 0 data)
    (fun x data => StoredBefore image W H y x 0 data) W 0 data hinv
    (fun j t _ hj hP => store_channels hshape hy (by omega) hP)
  refine ⟨data1, h1, h2.1, ?_⟩
  intro c1 y1 x1 hc1 hy1 hx1 hb
  apply h2.2 c1 y1 x1 hc1 hy1 hx1
  unfold Before at hb ⊢
  omega

/-- On an image of three `H x W` grids with `H ≥ 1`, `write_image` produces a buffer of
`H * W * 3` bytes that holds every sample at its interleaved offset. -/
theorem write_image_stored {image : image_t} {W H : Nat} (hshape : Shape3 H W image)
    (hH : 0 < H) :
    ∃ data, write_image image = .ok data ∧ StoredBefore image W H H 0 0 data := by
  obtain ⟨hlen, hrect⟩ := hshape
  have h0lt : 0 < image.length := by rw [hlen]; unfold NUM_CHANNELS; omega
  have hg : Rect H W image[0] := hrect _ (List.getElem_mem h0lt)
  have hy0 : 0 < image[0].length := by rw [hg.1]; exact hH
  have hrow : image[0][0].length = W := hg.2 _ (List.getElem_mem hy0)
  have h0 : StoredBefore image W H 0 0 0 (List.replicate (H * W * NUM_CHANNELS) 0) := by
    refine ⟨by simp, ?_⟩
    intro c y x _ _ _ hb
    unfold Before at hb
    omega
  obtain ⟨data1, h1, h2⟩ := forFrom_invariant
    (fun y data =>
      forFrom (fun x data =>
        forFrom (fun c data => store_sample image W NUM_CHANNELS y x c data)
          NUM_CHANNELS 0 data) W 0 data)
    (fun y data => StoredBefore image W H y 0 0 data) H 0 _ h0
    (fun j t _ hj hP => store_columns ⟨hlen, hrect⟩ (by omega) hP)
  refine ⟨data1, ?_, by simpa using h2⟩
  simp only [write_image, List.getElem?_eq_getElem h0lt, List.getElem?_eq_getElem hy0,
    hg.1, hrow, hlen]
  exact h1

/-- Two buffers of `H * W * 3` bytes that agree at the offset of every sample are equal. -/
theorem buffer_ext {W H : Nat} {d1 d2 : List Nat}
    (h1 : d1.length = H * W * NUM_CHANNELS) (h2 : d2.length = H * W * NUM_CHANNELS)
    (h : ∀ c y x, c < NUM_CHANNELS → y < H → x < W →
      d1[(y * W + x) * NUM_CHANNELS + c]? = d2[(y * W + x) * NUM_CHANNELS + c]?) :
    d1 = d2 := by
  apply List.ext_getElem?
  intro n
  by_cases hn : n < H * W * NUM_CHANNELS
  · unfold NUM_CHANNELS at *
    have hW : 0 < W := by
      rcases Nat.eq_zero_or_pos W with e | e
      · subst e; simp at hn
      · exact e
    have hq : n / 3 < H * W := by omega
    have hy : n / 3 / W < H := by
      apply Nat.div_lt_of_lt_mul
      rw [Nat.mul_comm]; exact hq
    have hx : n / 3 % W < W := Nat.mod_lt _ hW
    have hc : n % 3 < 3 := Nat.mod_lt _ (by omega)
    have e1 : n / 3 / W * W + n / 3 % W = n / 3 := by
      rw [Nat.mul_comm]; exact Nat.div_add_mod _ _
    have e2 : (n / 3 / W * W + n / 3 % W) * 3 + n % 3 = n := by
      rw [e1]; omega
    have := h (n % 3) (n / 3 / W) (n / 3 % W) hc hy hx
    rw [e2] at this
    exact this
  · rw [List.getElem?_eq_none (by omega), List.getElem?_eq_none (by omega)]

/-! ## Claims about `load_image` and `write_image` -/

/-- C6 (counterexample). For width 4 and height 0 the buffer of length `3 * 4 * 0` is
empty; `load_image` yields three grids without rows and `write_image` then reads
`image[0][0]` to obtain the width, an out-of-range access, so no buffer is produced. -/
theorem roundtrip_zero_height :
    ([] : List Nat).length = 3 * 4 * 0 ∧
    load_image 4 0 [] = .ok [[], [], []] ∧
    roundtrip 4 0 [] = .error .outOfRange := by
  refine ⟨rfl, rfl, rfl⟩

/-- C6 (amended). For every width `W`, every height `H ≥ 1` and every interleaved buffer
of length `3 * W * H`, de-interleaving it with the loops of `load_image` and
re-interleaving the three grids with the loops of `write_image` yields the original
buffer. -/
theorem roundtrip_identity (W H : Nat) (data : List Nat) (hH : 0 < H)
    (hlen : data.length = 3 * W * H) : roundtrip W H data = .ok data := by
  have hlen1 : data.length = H * W * NUM_CHANNELS := by
    rw [hlen]; unfold NUM_CHANNELS; ring
  obtain ⟨image, hload, hshape, hloaded⟩ := load_image_loaded hlen1
  obtain ⟨data1, hwrite, hlen2, hstored⟩ := write_image_stored (W := W) hshape hH
  have hall : ∀ y x c : Nat, y < H → Before H 0 0 y x c := fun y x c hy => Or.inl hy
  have heq : data1 = data := by
    apply buffer_ext hlen2 hlen1
    intro c y x hc hy hx
    rw [hstored c y x hc hy hx (hall y x c hy), hloaded c y x hc hy hx (hall y x c hy)]
  simp only [roundtrip, hload, hwrite, heq]

/-- Witness of the amended C6 on a 2 x 2 image. -/
theorem roundtrip_identity_witness :
    roundtrip 2 2 [1, 2, 3, 4, 5, 6, 7, 8, 9, 10, 11, 12]
      = .ok [1, 2, 3, 4, 5, 6, 7, 8, 9, 10, 11, 12] :=
  roundtrip_identity 2 2 [1, 2, 3, 4, 5, 6, 7, 8, 9, 10, 11, 12] (by decide) (by decide)

/-- C7. For every width `W`, height `H` and interleaved buffer `data` of length `3 * W * H`,
the loops of `load_image` produce exactly 3 grids, each with `H` rows of `W` samples, and
for every channel `c < 3`, row `y < H` and column `x < W` the sample `grid[c][y][x]` is
the byte `data[(y * W + x) * 3 + c]`. -/
theorem load_image_deinterleaves (W H : Nat) (data : List Nat)
    (hlen : data.length = 3 * W * H) :
    ∃ image, load_image W H data = .ok image ∧ image.length = 3 ∧
      (∀ g ∈ image, Rect H W g) ∧
      ∀ c y x, c < 3 → y < H → x < W →
        ∃ h : (y * W + x) * 3 + c < data.length,
          read3 image c y x = some (data.get ⟨(y * W + x) * 3 + c, h⟩) := by
  have hlen1 : data.length = H * W * NUM_CHANNELS := by
    rw [hlen]; unfold NUM_CHANNELS; ring
  obtain ⟨image, hload, hshape, hloaded⟩ := load_image_loaded hlen1
  refine ⟨image, hload, hshape.1, hshape.2, ?_⟩
  intro c y x hc hy hx
  have hidx : (y * W + x) * 3 + c < data.length := by
    rw [hlen1]; exact offset_lt hc hy hx
  refine ⟨hidx, ?_⟩
  have := hloaded c y x hc hy hx (Or.inl hy)
  rw [this]
  simp [NUM_CHANNELS, List.getElem?_eq_getElem hidx]

/-- Witness of C7 on a 2 x 2 image: the three grids hold the R, G and B bytes. -/
theorem load_image_deinterleaves_witness :
    load_image 2 2 [1, 2, 3, 4, 5, 6, 7, 8, 9, 10, 11, 12]
      = .ok [[[1, 4], [7, 10]], [[2, 5], [8, 11]], [[3, 6], [9, 12]]] ∧
    ∃ image, load_image 2 2 [1, 2, 3, 4, 5, 6, 7, 8, 9, 10, 11, 12] = .ok image ∧
      image.length = 3 ∧ (∀ g ∈ image, Rect 2 2 g) ∧
      ∀ c y x, c < 3 → y < 2 → x < 2 →
        ∃ h : (y * 2 + x) * 3 + c < [1, 2, 3, 4, 5, 6, 7, 8, 9, 10, 11, 12].length,
          read3 image c y x
            = some ([1, 2, 3, 4, 5, 6, 7, 8, 9, 10, 11, 12].get ⟨(y * 2 + x) * 3 + c, h⟩) :=
  ⟨rfl, load_image_deinterleaves 2 2 [1, 2, 3, 4, 5, 6, 7, 8, 9, 10, 11, 12] (by decide)⟩

/-! ## Only row `pad` is written -/

/-- The loop body either stops and leaves `result` as it was, or performs one write at
`(initial_row, initial_col)`. -/
theorem pixel_body_cases (image : single_channel_image_t) (k pad ir ic : Int)
    (g : single_channel_image_t) :
    (∃ f, pixel_body image k pad ir ic g = .error (f, g)) ∨
    (∃ v g1, pixel_body image k pad ir ic g = .ok g1 ∧ writeSample g ir ic v = some g1) := by
  unfold pixel_body
  cases window_sum image pad ir ic with
  | error f => exact Or.inl ⟨f, rfl⟩
  | ok sum =>
    cases checkedInt (k * k) with
    | error f => exact Or.inl ⟨f, rfl⟩
    | ok d =>
      by_cases hd : d = 0
      · simp only [hd, if_true]; exact Or.inl ⟨_, rfl⟩
      · simp only [hd, if_false]
        cases hw : writeSample g ir ic (toUInt8 (sum.tdiv d)) with
        | none => exact Or.inl ⟨_, rfl⟩
        | some g2 => exact Or.inr ⟨_, g2, rfl, hw⟩

/-- The column loop leaves its counter at the start value plus the number of iterations. -/
theorem col_loop_counter (image : single_channel_image_t) (k pad ir : Int) :
    ∀ (n : Nat) (ic : Int) (g g1 : single_channel_image_t) (ic1 : Int),
      col_loop image k pad ir n ic g = .ok (g1, ic1) → ic1 = ic + n := by
  intro n
  induction n with
  | zero =>
    intro ic g g1 ic1 h
    simp only [col_loop, Except.ok.injEq, Prod.mk.injEq] at h
    simp [← h.2]
  | succ n ih =>
    intro ic g g1 ic1 h
    simp only [col_loop] at h
    cases hb : pixel_body image k pad ir ic g with
    | error e => simp [hb] at h
    | ok g2 =>
      simp only [hb] at h
      have := ih (ic + 1) g2 g1 ic1 h
      push_cast
      omega

theorem otherRowsZero_write {H W : Nat} {ir ic : Int} {v : Nat}
    {g g1 : single_channel_image_t} (hg : OtherRowsZero H W ir g)
    (hw : writeSample g ir ic v = some g1) : OtherRowsZero H W ir g1 := by
  obtain ⟨h0r, _, _, _, hrect, hsamp⟩ := writeSample_spec hg.1 hw
  refine ⟨hrect, ?_⟩
  intro r c hr hc hne
  rw [hsamp]
  have hno : ¬ (r = ir.toNat ∧ c = ic.toNat) := by
    rintro ⟨e1, _⟩
    omega
  simp only [hno, if_false]
  exact hg.2 r c hr hc hne

/-- The column loop in row `ir` changes no other row. -/
theorem col_loop_otherRowsZero {H W : Nat} (image : single_channel_image_t) (k pad ir : Int) :
    ∀ (n : Nat) (ic : Int) (g : single_channel_image_t), OtherRowsZero H W ir g →
      (∀ g1 ic1, col_loop image k pad ir n ic g = .ok (g1, ic1) → OtherRowsZero H W ir g1) ∧
      (∀ f g1, col_loop image k pad ir n ic g = .error (f, g1) → OtherRowsZero H W ir g1) := by
  intro n
  induction n with
  | zero =>
    intro ic g hg
    simp only [col_loop]
    refine ⟨?_, by simp⟩
    intro g1 ic1 h
    simp only [Except.ok.injEq, Prod.mk.injEq] at h
    rw [← h.1]; exact hg
  | succ n ih =>
    intro ic g hg
    simp only [col_loop]
    rcases pixel_body_cases image k pad ir ic g with ⟨f, hb⟩ | ⟨v, g2, hb, hw⟩
    · rw [hb]
      refine ⟨by simp, ?_⟩
      intro f1 g1 h
      simp only [Except.error.injEq, Prod.mk.injEq] at h
      rw [← h.2]; exact hg
    · rw [hb]
      exact ih (ic + 1) g2 (otherRowsZero_write hg hw)

/-- The row loop started in row `pad` with `initial_col = pad` writes in row `pad` only:
after the first row the column counter stands past its bound. -/
theorem row_loop_otherRowsZero {H W : Nat} (image : single_channel_image_t) (k pad : Int)
    (n : Nat) (g : single_channel_image_t) (hg : OtherRowsZero H W pad g) :
    (∀ g1 ic1, row_loop image k W pad n pad pad g = .ok (g1, ic1) → OtherRowsZero H W pad g1) ∧
    (∀ f g1, row_loop image k W pad n pad pad g = .error (f, g1) → OtherRowsZero H W pad g1) := by
  cases n with
  | zero =>
    simp only [row_loop]
    refine ⟨?_, by simp⟩
    intro g1 ic1 h
    simp only [Except.ok.injEq, Prod.mk.injEq] at h
    rw [← h.1]; exact hg
  | succ n =>
    obtain ⟨cok, cerr⟩ := col_loop_otherRowsZero (H := H) (W := W) image k pad pad
      ((W : Int) - pad + 1 - pad).toNat pad g hg
    simp only [row_loop]
    cases hb : col_loop image k pad pad ((W : Int) - pad + 1 - pad).toNat pad g with
    | error e =>
      obtain ⟨f, g2⟩ := e
      refine ⟨by simp, ?_⟩
      intro f1 g1 h
      simp only [Except.error.injEq, Prod.mk.injEq] at h
      rw [← h.2]; exact cerr f g2 hb
    | ok res =>
      obtain ⟨g2, ic2⟩ := res
      have hic2 := col_loop_counter image k pad pad _ _ _ _ _ hb
      have hpast : (W : Int) - pad + 1 - ic2 ≤ 0 := by
        have := Int.self_le_toNat ((W : Int) - pad + 1 - pad)
        omega
      simp only
      rw [row_loop_idle image k W pad ic2 g2 hpast n (pad + 1)]
      refine ⟨?_, by simp⟩
      intro g1 ic1 h
      simp only [Except.ok.injEq, Prod.mk.injEq] at h
      rw [← h.1]; exact cok g2 ic2 hb

theorem otherRowsZero_zeros (H W : Nat) (row : Int) : OtherRowsZero H W row (zeros H W) :=
  ⟨rect_zeros H W, fun _ _ hr hc _ => sampleAt_zeros hr hc⟩

/-- The `result` vector of every call on a rectangular grid holds zero outside row `pad`. -/
theorem apply_box_blur_otherRowsZero {H W : Nat} {image : single_channel_image_t} (k : Int)
    (hrect : Rect H W image) : OtherRowsZero H W (k.tdiv 2) (apply_box_blur image k).grid := by
  cases image with
  | nil =>
    have hH : H = 0 := by simpa [Rect] using hrect.1.symm
    subst hH
    refine ⟨by simp [apply_box_blur, Outcome.grid, Rect], ?_⟩
    intro r c hr
    omega
  | cons row0 rest =>
    have hW : row0.length = W := hrect.2 row0 (by simp)
    have hH : (row0 :: rest).length = H := hrect.1
    subst hW
    subst hH
    obtain ⟨rok, rerr⟩ := row_loop_otherRowsZero (H := (row0 :: rest).length) (W := row0.length)
      (row0 :: rest) k (k.tdiv 2)
      ((((row0 :: rest).length : Nat) : Int) - k.tdiv 2 + 1 - k.tdiv 2).toNat
      (zeros (row0 :: rest).length row0.length) (otherRowsZero_zeros _ _ _)
    simp only [apply_box_blur]
    cases hb : row_loop (row0 :: rest) k (row0.length : Int) (k.tdiv 2)
        ((((row0 :: rest).length : Nat) : Int) - k.tdiv 2 + 1 - k.tdiv 2).toNat (k.tdiv 2) (k.tdiv 2)
        (zeros (row0 :: rest).length row0.length) with
    | error e =>
      obtain ⟨f, g⟩ := e
      exact rerr f g hb
    | ok res =>
      obtain ⟨g, ic⟩ := res
      exact rok g ic hb

/-! ## What is stored in row `pad` -/

theorem elemAt_natCast {α : Type} (xs : List α) (j : Nat) : elemAt xs (j : Int) = xs[j]? := by
  simp [elemAt]

theorem elemAt_mem {α : Type} {xs : List α} {i : Int} {x : α} (h : elemAt xs i = some x) :
    x ∈ xs := by
  unfold elemAt at h
  by_cases hi : 0 ≤ i
  · simp only [hi, if_true] at h
    exact List.mem_iff_getElem?.2 ⟨_, h⟩
  · simp [hi] at h

/-- The inner window loop adds up consecutive samples of one row. -/
theorem filter_col_loop_sum {image : single_channel_image_t} (hs : Samples8 image)
    (ir ic fr : Int) (row : List Nat) (hrow : elemAt image (ir + fr) = some row) :
    ∀ (n : Nat) (sum fc : Int) (j : Nat), ic + fc = (j : Int) → j + n ≤ row.length → 0 ≤ sum →
      sum + 255 * (n : Int) ≤ INT_MAX →
      filter_col_loop image ir ic fr n sum fc
        = .ok (sum + ((((row.drop j).take n).sum : Nat) : Int), fc + n) := by
  intro n
  induction n with
  | zero =>
    intro sum fc j _ _ _ _
    simp [filter_col_loop]
  | succ n ih =>
    intro sum fc j hj hlen h0 hmax
    have hjlt : j < row.length := by omega
    have hread : readSample image (ir + fr) (ic + fc) = .ok row[j] := by
      simp [readSample, hrow, hj, elemAt_natCast, List.getElem?_eq_getElem hjlt]
    have hv : row[j] < 256 := hs row (elemAt_mem hrow) _ (List.getElem_mem hjlt)
    have hin : INT_MIN ≤ sum + (row[j] : Int) ∧ sum + (row[j] : Int) ≤ INT_MAX := by
      unfold INT_MIN; unfold INT_MAX at hmax ⊢
      push_cast at hmax
      omega
    have hmax2 : sum + (row[j] : Int) + 255 * (n : Int) ≤ INT_MAX := by
      unfold INT_MAX at hmax ⊢
      push_cast at hmax
      omega
    simp only [filter_col_loop, hread, checkedInt, hin, and_self, if_true]
    rw [ih (sum + row[j]) (fc + 1) (j + 1) (by push_cast; omega) (by omega) (by omega) hmax2]
    have hdrop : (row.drop j).take (n + 1) = row[j] :: (row.drop (j + 1)).take n := by
      rw [List.drop_eq_getElem_cons hjlt, List.take_succ_cons]
    rw [hdrop, List.sum_cons]
    congr 2
    · push_cast; ring
    · push_cast; ring

/-- Once `filter_col` has passed its bound the window rows that follow add nothing. -/
theorem filter_row_loop_idle (image : single_channel_image_t) (pad ir ic sum fc : Int)
    (h : pad + 1 - fc ≤ 0) :
    ∀ (n : Nat) (fr : Int), filter_row_loop image pad ir ic n fr sum fc = .ok (sum, fc) := by
  intro n
  induction n with
  | zero => intro fr; rfl
  | succ n ih =>
    intro fr
    simp only [filter_row_loop, Int.toNat_eq_zero.2 h, filter_col_loop]
    exact ih (fr + 1)

theorem top_row_sum_le {image : single_channel_image_t} (hs : Samples8 image)
    (first count : Nat) : top_row_sum image first count ≤ 255 * count := by
  unfold top_row_sum
  have hmem : ∀ x ∈ ((image.headD []).drop first).take count, x ≤ 255 := by
    intro x hx
    have hx1 : x ∈ image.headD [] := List.mem_of_mem_drop (List.mem_of_mem_take hx)
    cases image with
    | nil => simp at hx1
    | cons row0 rest =>
      have := hs row0 (by simp) x (by simpa using hx1)
      omega
  have h1 := List.sum_le_card_nsmul _ 255 hmem
  have h2 : (((image.headD []).drop first).take count).length ≤ count := by
    rw [List.length_take]; exact Nat.min_le_left _ _
  simp only [smul_eq_mul] at h1
  calc _ ≤ _ := h1
    _ ≤ count * 255 := Nat.mul_le_mul_right 255 h2
    _ = 255 * count := Nat.mul_comm _ _

/-- In row `pad` the window loops add up the `2 * pad + 1` samples of row 0 around the
column, and nothing else. -/
theorem window_sum_top_row {image : single_channel_image_t} (hs : Samples8 image)
    (row0 : List Nat) (rest : single_channel_image_t) (himg : image = row0 :: rest)
    (p c : Nat) (hc1 : p ≤ c) (hc2 : c + p < row0.length)
    (hfit : 255 * ((2 * p + 1 : Nat) : Int) ≤ INT_MAX) :
    window_sum image (p : Int) (p : Int) (c : Int)
      = .ok ((top_row_sum image (c - p) (2 * p + 1) : Nat) : Int) := by
  have hcount : ((p : Int) + 1 - -(p : Int)).toNat = 2 * p + 1 := by omega
  have hrow : elemAt image ((p : Int) + -(p : Int)) = some row0 := by
    rw [himg]; simp [elemAt]
  have hsum := filter_col_loop_sum hs (p : Int) (c : Int) (-(p : Int)) row0 hrow
    (2 * p + 1) 0 (-(p : Int)) (c - p) (by omega) (by omega) (le_refl _)
    (by simpa using hfit)
  unfold window_sum
  rw [hcount]
  simp only [filter_row_loop, hcount, hsum]
  rw [filter_row_loop_idle _ _ _ _ _ _ (by push_cast; omega)]
  simp only [zero_add]
  rw [top_row_sum, himg]
  rfl

/-- A write inside a rectangular grid succeeds. -/
theorem writeSample_ok {H W : Nat} {g : single_channel_image_t} (hg : Rect H W g)
    {r c : Nat} (hr : r < H) (hc : c < W) (v : Nat) :
    ∃ g1, writeSample g (r : Int) (c : Int) v = some g1 := by
  have hr1 : r < g.length := by rw [hg.1]; exact hr
  have hrow : g[r].length = W := hg.2 _ (List.getElem_mem hr1)
  have hc1 : c < g[r].length := by omega
  refine ⟨g.set r (g[r].set c v), ?_⟩
  simp [writeSample, elemAt_natCast, List.getElem?_eq_getElem hr1,
    List.getElem?_eq_getElem hc1]

/-- Conversion to `uint8_t` of the quotient of two naturals that is below 256. -/
theorem toUInt8_tdiv_natCast (S d : Nat) (h : S / d < 256) :
    toUInt8 ((S : Int).tdiv (d : Int)) = S / d := by
  rw [Int.tdiv_eq_ediv (by omega) (by omega)]
  unfold toUInt8
  have : ((S : Int) / (d : Int)) = ((S / d : Nat) : Int) := by norm_cast
  rw [this]
  generalize S / d = m at h ⊢
  omega

/-- The loop body in row `pad` at a column whose window lies inside row 0 stores the sum
of the `k` samples of row 0 divided by `k * k`. -/
theorem pixel_body_top_row {image : single_channel_image_t} {H W : Nat} (hs : Samples8 image)
    (row0 : List Nat) (rest : single_channel_image_t) (himg : image = row0 :: rest)
    (hW : row0.length = W) (p kn : Nat) (hk : kn = 2 * p + 1)
    (hfit : (kn : Int) * (kn : Int) ≤ INT_MAX) (hpH : p < H)
    (g : single_channel_image_t) (hg : Rect H W g) (c : Nat) (hc1 : p ≤ c) (hc2 : c + p < W) :
    ∃ g2, pixel_body image (kn : Int) (p : Int) (p : Int) (c : Int) g = .ok g2 ∧
      writeSample g (p : Int) (c : Int) (top_row_sum image (c - p) kn / (kn * kn)) = some g2 := by
  have hkpos : 0 < kn := by omega
  have h255 : 255 * ((2 * p + 1 : Nat) : Int) ≤ INT_MAX := by
    rw [← hk]
    unfold INT_MAX at hfit ⊢
    by_cases hsmall : kn ≤ 255
    · omega
    · have : (255 : Int) * kn ≤ (kn : Int) * kn := by
        apply mul_le_mul_of_nonneg_right <;> omega
      omega
  have hwin := window_sum_top_row hs row0 rest himg p c hc1 (by omega) h255
  rw [← hk] at hwin
  have hin : INT_MIN ≤ (kn : Int) * (kn : Int) ∧ (kn : Int) * (kn : Int) ≤ INT_MAX := by
    refine ⟨?_, hfit⟩
    unfold INT_MIN
    have : (0 : Int) ≤ (kn : Int) * (kn : Int) := by positivity
    omega
  have hne : ¬ ((kn : Int) * (kn : Int) = 0) := by
    have : (0 : Int) < (kn : Int) * (kn : Int) := by positivity
    omega
  have hle : top_row_sum image (c - p) kn ≤ 255 * kn := top_row_sum_le hs _ _
  have hq : top_row_sum image (c - p) kn / (kn * kn) < 256 := by
    apply Nat.lt_succ_of_le
    apply Nat.div_le_of_le_mul
    calc top_row_sum image (c - p) kn ≤ 255 * kn := hle
      _ ≤ 255 * kn * kn := Nat.le_mul_of_pos_right _ hkpos
      _ = kn * kn * 255 := by ring
  have hconv := toUInt8_tdiv_natCast (top_row_sum image (c - p) kn) (kn * kn) hq
  push_cast at hconv
  obtain ⟨g2, hw⟩ := writeSample_ok hg hpH (by omega : c < W)
    (top_row_sum image (c - p) kn / (kn * kn))
  refine ⟨g2, ?_, hw⟩
  simp only [pixel_body, hwin, checkedInt, hin, and_self, if_true, hne, if_false, hconv, hw]

/-- The column loop in row `pad` fills the columns whose window lies inside row 0, and
whatever happens at later columns leaves them as they are. -/
theorem col_loop_rowPadDone {image : single_channel_image_t} {H W : Nat} (hs : Samples8 image)
    (row0 : List Nat) (rest : single_channel_image_t) (himg : image = row0 :: rest)
    (hW : row0.length = W) (p kn : Nat) (hk : kn = 2 * p + 1)
    (hfit : (kn : Int) * (kn : Int) ≤ INT_MAX) (hpH : p < H) :
    ∀ (n ic : Nat) (g : single_channel_image_t), p ≤ ic → RowPadDone image H W p kn ic g →
      (∀ g1 ic1, col_loop image (kn : Int) (p : Int) (p : Int) n (ic : Int) g = .ok (g1, ic1) →
        RowPadDone image H W p kn ((ic : Int) + n) g1) ∧
      (∀ f g1, col_loop image (kn : Int) (p : Int) (p : Int) n (ic : Int) g = .error (f, g1) →
        RowPadDone image H W p kn W g1) := by
  intro n
  induction n with
  | zero =>
    intro ic g _ hg
    simp only [col_loop]
    refine ⟨?_, by simp⟩
    intro g1 ic1 h
    simp only [Except.ok.injEq, Prod.mk.injEq] at h
    rw [← h.1]
    simpa using hg
  | succ n ih =>
    intro ic g hic hg
    have hstep : ∀ (v : Nat) (g2 : single_channel_image_t),
        writeSample g (p : Int) (ic : Int) v = some g2 →
        (ic + p < W → v = top_row_sum image (ic - p) kn / (kn * kn)) →
        RowPadDone image H W p kn ((ic + 1 : Nat) : Int) g2 := by
      intro v g2 hw hv
      obtain ⟨_, _, _, _, hrect, hsamp⟩ := writeSample_spec hg.1 hw
      refine ⟨hrect, ?_⟩
      intro c hc1 hc2 hc3
      rw [hsamp]
      by_cases hcc : c = ic
      · subst hcc
        simp [hv hc3]
      · have hno : ¬ (p = (p : Int).toNat ∧ c = (ic : Int).toNat) := by
          rintro ⟨_, e2⟩
          apply hcc
          simpa using e2
        simp only [hno, if_false]
        exact hg.2 c hc1 (by push_cast at hc2; omega) hc3
    simp only [col_loop]
    by_cases hin : ic + p < W
    · obtain ⟨g2, hb, hw⟩ := pixel_body_top_row hs row0 rest himg hW p kn hk hfit hpH g hg.1
        ic hic hin
      rw [hb]
      obtain ⟨iok, ierr⟩ := ih (ic + 1) g2 (by omega) (hstep _ g2 hw (fun _ => rfl))
      refine ⟨?_, ierr⟩
      intro g1 ic1 h
      have := iok g1 ic1 (by simpa using h)
      have e : ((ic : Int) + ((n + 1 : Nat) : Int)) = (((ic + 1 : Nat) : Int) + (n : Int)) := by
        push_cast; ring
      rw [e]; exact this
    · rcases pixel_body_cases image (kn : Int) (p : Int) (p : Int) (ic : Int) g with
        ⟨f, hb⟩ | ⟨v, g2, hb, hw⟩
      · rw [hb]
        refine ⟨by simp, ?_⟩
        intro f1 g1 h
        simp only [Except.error.injEq, Prod.mk.injEq] at h
        rw [← h.2]
        refine ⟨hg.1, ?_⟩
        intro c hc1 _ hc3
        exact hg.2 c hc1 (by omega) hc3
      · rw [hb]
        obtain ⟨iok, ierr⟩ := ih (ic + 1) g2 (by omega) (hstep v g2 hw (fun h => absurd h hin))
        refine ⟨?_, ierr⟩
        intro g1 ic1 h
        have := iok g1 ic1 (by simpa using h)
        have e : ((ic : Int) + ((n + 1 : Nat) : Int)) = (((ic + 1 : Nat) : Int) + (n : Int)) := by
          push_cast; ring
        rw [e]; exact this

/-- When the product `filter_size * filter_size` leaves the `int` range the loop body
stops before it writes. -/
theorem pixel_body_overflow (image : single_channel_image_t) (k pad ir ic : Int)
    (g : single_channel_image_t) (hbig : INT_MAX < k * k) :
    ∃ f, pixel_body image k pad ir ic g = .error (f, g) := by
  have hno : ¬ (INT_MIN ≤ k * k ∧ k * k ≤ INT_MAX) := by omega
  unfold pixel_body
  cases window_sum image pad ir ic with
  | error f => exact ⟨f, rfl⟩
  | ok sum => exact ⟨.overflow, by simp [checkedInt, hno]⟩

theorem col_loop_overflow (image : single_channel_image_t) (k pad ir : Int)
    (hbig : INT_MAX < k * k) (n : Nat) (ic : Int) (g : single_channel_image_t) :
    (∃ ic1, col_loop image k pad ir n ic g = .ok (g, ic1)) ∨
    (∃ f, col_loop image k pad ir n ic g = .error (f, g)) := by
  cases n with
  | zero => exact Or.inl ⟨ic, rfl⟩
  | succ n =>
    obtain ⟨f, hb⟩ := pixel_body_overflow image k pad ir ic g hbig
    exact Or.inr ⟨f, by simp [col_loop, hb]⟩

theorem row_loop_overflow (image : single_channel_image_t) (k width pad : Int)
    (hbig : INT_MAX < k * k) (g : single_channel_image_t) :
    ∀ (n : Nat) (ir ic : Int),
      (∃ ic1, row_loop image k width pad n ir ic g = .ok (g, ic1)) ∨
      (∃ f, row_loop image k width pad n ir ic g = .error (f, g)) := by
  intro n
  induction n with
  | zero => intro ir ic; exact Or.inl ⟨ic, rfl⟩
  | succ n ih =>
    intro ir ic
    simp only [row_loop]
    rcases col_loop_overflow image k pad ir hbig (width - pad + 1 - ic).toNat ic g with
      ⟨ic1, h⟩ | ⟨f, h⟩
    · rw [h]; exact ih (ir + 1) ic1
    · rw [h]; exact Or.inr ⟨f, rfl⟩

/-- With `filter_size * filter_size` outside the `int` range nothing is ever written. -/
theorem apply_box_blur_overflow {H W : Nat} {image : single_channel_image_t} (k : Int)
    (hrect : Rect H W image) (hH : 0 < H) (hbig : INT_MAX < k * k) :
    (apply_box_blur image k).grid = zeros H W := by
  cases image with
  | nil =>
    have : H = 0 := by simpa [Rect] using hrect.1.symm
    omega
  | cons row0 rest =>
    have hW : row0.length = W := hrect.2 row0 (by simp)
    have hL : (row0 :: rest).length = H := hrect.1
    subst hW
    subst hL
    simp only [apply_box_blur]
    rcases row_loop_overflow (row0 :: rest) k (row0.length : Int) (k.tdiv 2) hbig
        (zeros (row0 :: rest).length row0.length)
        ((((row0 :: rest).length : Nat) : Int) - k.tdiv 2 + 1 - k.tdiv 2).toNat
        (k.tdiv 2) (k.tdiv 2) with ⟨ic1, h⟩ | ⟨f, h⟩
    · rw [h]; rfl
    · rw [h]; rfl

/-- Row `pad` of the `result` vector when `filter_size * filter_size` fits an `int`. -/
theorem apply_box_blur_rowPadDone_fit {image : single_channel_image_t} {H W : Nat}
    (hs : Samples8 image) (hrect : Rect H W image) (p kn : Nat) (hk : kn = 2 * p + 1)
    (hfit : (kn : Int) * (kn : Int) ≤ INT_MAX) (hpH : p < H) (hrows : 2 * p ≤ H) :
    RowPadDone image H W p kn W (apply_box_blur image (kn : Int)).grid := by
  cases himg : image with
  | nil =>
    have : H = 0 := by rw [himg] at hrect; simpa [Rect] using hrect.1.symm
    omega
  | cons row0 rest =>
    rw [← himg]
    have hW : row0.length = W := hrect.2 row0 (by rw [himg]; simp)
    have hL : image.length = H := hrect.1
    have hpad : (kn : Int).tdiv 2 = (p : Int) := by
      rw [Int.tdiv_eq_ediv (by omega) (by omega)]; omega
    have hrowcount : (((image.length : Nat) : Int) - (p : Int) + 1 - (p : Int)).toNat
        = (H - 2 * p) + 1 := by omega
    have hstart : RowPadDone image H W p kn ((p : Nat) : Int) (zeros H W) := by
      refine ⟨rect_zeros H W, ?_⟩
      intro c hc1 hc2 _
      omega
    obtain ⟨cok, cerr⟩ := col_loop_rowPadDone hs row0 rest himg hW p kn hk hfit hpH
      ((W : Int) - (p : Int) + 1 - (p : Int)).toNat p (zeros H W) (le_refl _) hstart
    have happ : apply_box_blur image (kn : Int) =
        match row_loop image (kn : Int) (W : Int) (p : Int)
            ((H - 2 * p) + 1) (p : Int) (p : Int) (zeros H W) with
        | .error (f, g) => .undefined f g
        | .ok (g, _) => .returned g := by
      rw [himg]
      simp only [apply_box_blur]
      rw [← himg, hpad, hrowcount, hW, hL]
    rw [happ]
    simp only [row_loop]
    cases hb : col_loop image (kn : Int) (p : Int) (p : Int)
        ((W : Int) - (p : Int) + 1 - (p : Int)).toNat (p : Int) (zeros H W) with
    | error e =>
      obtain ⟨f, g2⟩ := e
      exact cerr f g2 hb
    | ok res =>
      obtain ⟨g2, ic2⟩ := res
      have hic2 := col_loop_counter image (kn : Int) (p : Int) (p : Int) _ _ _ _ _ hb
      have hpast : (W : Int) - (p : Int) + 1 - ic2 ≤ 0 := by
        have := Int.self_le_toNat ((W : Int) - (p : Int) + 1 - (p : Int))
        omega
      simp only
      rw [row_loop_idle image (kn : Int) W (p : Int) ic2 g2 hpast]
      simp only [Outcome.grid]
      have hdone := cok g2 ic2 hb
      refine ⟨hdone.1, ?_⟩
      intro c hc1 _ hc3
      apply hdone.2 c hc1 ?_ hc3
      have := Int.self_le_toNat ((W : Int) - (p : Int) + 1 - (p : Int))
      omega

/-! ## The inclusive column bound -/

/-- An inner window loop whose last read fails ends in a fault. -/
theorem filter_col_loop_last_fails (image : single_channel_image_t) (ir ic fr : Int) :
    ∀ (n : Nat) (sum fc : Int),
      (∀ v, readSample image (ir + fr) (ic + fc + n) ≠ .ok v) →
      ∃ f, filter_col_loop image ir ic fr (n + 1) sum fc = .error f := by
  intro n
  induction n with
  | zero =>
    intro sum fc hlast
    simp only [filter_col_loop]
    cases hread : readSample image (ir + fr) (ic + fc) with
    | error f => exact ⟨f, rfl⟩
    | ok v => exact absurd (by simpa using hread) (hlast v)
  | succ n ih =>
    intro sum fc hlast
    rw [filter_col_loop]
    cases hread : readSample image (ir + fr) (ic + fc) with
    | error f => exact ⟨f, rfl⟩
    | ok v =>
      simp only
      cases hsum : checkedInt (sum + (v : Int)) with
      | error f => exact ⟨f, rfl⟩
      | ok sum1 =>
        simp only
        apply ih sum1 (fc + 1)
        intro v1
        have := hlast v1
        have e : ic + (fc + 1) + (n : Int) = ic + fc + ((n + 1 : Nat) : Int) := by
          push_cast; ring
        rw [e]; exact this

/-- At the last column of the inclusive bound the window reaches `image[0][W]`. -/
theorem window_sum_past_row (row0 : List Nat) (rest : single_channel_image_t)
    (pad c : Int) (hpad : 0 ≤ pad) (hc : c + pad = (row0.length : Int)) :
    ∃ f, window_sum (row0 :: rest) pad pad c = .error f := by
  have hcount : (pad + 1 - -pad).toNat = (2 * pad).toNat + 1 := by omega
  have hlast : ∀ v, readSample (row0 :: rest) (pad + -pad)
      (c + -pad + ((2 * pad).toNat : Nat)) ≠ .ok v := by
    intro v
    have e : c + -pad + (((2 * pad).toNat : Nat) : Int) = ((row0.length : Nat) : Int) := by omega
    rw [e]
    simp [readSample, elemAt]
  obtain ⟨f, hf⟩ := filter_col_loop_last_fails (row0 :: rest) pad c (-pad)
    (2 * pad).toNat 0 (-pad) hlast
  refine ⟨f, ?_⟩
  unfold window_sum
  rw [hcount]
  simp only [filter_row_loop, hcount, hf]

/-- A column loop in row `pad` that reaches column `W - pad` ends in a fault. -/
theorem col_loop_reaches_fault (row0 : List Nat) (rest : single_channel_image_t)
    (k pad : Int) (hpad : 0 ≤ pad) :
    ∀ (n : Nat) (ic : Int) (g : single_channel_image_t), ic ≤ (row0.length : Int) - pad →
      (row0.length : Int) - pad < ic + n →
      ∃ f g1, col_loop (row0 :: rest) k pad pad n ic g = .error (f, g1) := by
  intro n
  induction n with
  | zero => intro ic g h1 h2; simp at h2; omega
  | succ n ih =>
    intro ic g h1 h2
    simp only [col_loop]
    rcases pixel_body_cases (row0 :: rest) k pad pad ic g with ⟨f, hb⟩ | ⟨v, g2, hb, _⟩
    · rw [hb]; exact ⟨f, g, rfl⟩
    · by_cases hlast : ic = (row0.length : Int) - pad
      · obtain ⟨f, hf⟩ := window_sum_past_row row0 rest pad ic hpad (by omega)
        simp [pixel_body, hf] at hb
      · rw [hb]
        exact ih (ic + 1) g2 (by omega) (by push_cast at h2; omega)

/-- Whenever the grid has a row and both loops are entered (`2 * pad ≤ H` and
`2 * pad ≤ W`), the call reaches an undefined operation: it never returns. -/
theorem apply_box_blur_undefined {H W : Nat} (image : single_channel_image_t) (k : Int)
    (hrect : Rect H W image) (hH : 0 < H) (hk : 0 ≤ k)
    (hrows : 2 * (k / 2) ≤ (H : Int)) (hcols : 2 * (k / 2) ≤ (W : Int)) :
    ∃ f g, apply_box_blur image k = .undefined f g := by
  cases image with
  | nil =>
    have : H = 0 := by simpa [Rect] using hrect.1.symm
    omega
  | cons row0 rest =>
    have hW : row0.length = W := hrect.2 row0 (by simp)
    have hL : (row0 :: rest).length = H := hrect.1
    have hpad : k.tdiv 2 = k / 2 := Int.tdiv_eq_ediv hk (by omega)
    have hrowcount : ((((row0 :: rest).length : Nat) : Int) - k / 2 + 1 - k / 2).toNat
        = ((H : Int) - 2 * (k / 2)).toNat + 1 := by
      rw [hL]; omega
    obtain ⟨f, g1, hcol⟩ := col_loop_reaches_fault row0 rest k (k / 2) (by omega)
      ((row0.length : Int) - k / 2 + 1 - k / 2).toNat (k / 2)
      (zeros (row0 :: rest).length row0.length) (by omega) (by omega)
    refine ⟨f, g1, ?_⟩
    simp only [apply_box_blur]
    rw [hpad, hrowcount]
    simp only [row_loop, hcol]

/-! ## The filtering step and the pipeline of `main` -/

theorem set_replicate_zero (n i : Nat) :
    (List.replicate n 0).set i 0 = List.replicate n 0 := by
  apply List.ext_getElem?
  intro m
  rw [List.getElem?_set]
  by_cases h : i = m
  · subst h
    simp [List.getElem?_replicate]
  · simp [h]

theorem read3_zeros {H0 W0 H1 W1 H2 W2 : Nat} (hH1 : H0 ≤ H1) (hW1 : W0 ≤ W1)
    (hH2 : H0 ≤ H2) (hW2 : W0 ≤ W2) {c y x : Nat} (hc : c < NUM_CHANNELS) (hy : y < H0)
    (hx : x < W0) :
    read3 [zeros H0 W0, zeros H1 W1, zeros H2 W2] c y x = some 0 := by
  unfold NUM_CHANNELS at hc
  have h0 : y < H0 ∧ x < W0 := ⟨hy, hx⟩
  have h1 : y < H1 ∧ x < W1 := ⟨by omega, by omega⟩
  have h2 : y < H2 ∧ x < W2 := ⟨by omega, by omega⟩
  rcases (by omega : c = 0 ∨ c = 1 ∨ c = 2) with rfl | rfl | rfl <;>
    simp [read3, zeros, List.getElem?_replicate, h0, h1, h2]

/-- On three zero grids, the second and third at least as large as the first,
`write_image` produces the zero buffer sized by the first grid. -/
theorem write_image_zeros {H0 W0 H1 W1 H2 W2 : Nat} (h0 : 0 < H0) (hH1 : H0 ≤ H1)
    (hW1 : W0 ≤ W1) (hH2 : H0 ≤ H2) (hW2 : W0 ≤ W2) :
    write_image [zeros H0 W0, zeros H1 W1, zeros H2 W2]
      = .ok (List.replicate (H0 * W0 * NUM_CHANNELS) 0) := by
  have hstore : ∀ y x c d, y < H0 → x < W0 → c < NUM_CHANNELS →
      d = List.replicate (H0 * W0 * NUM_CHANNELS) 0 →
      store_sample [zeros H0 W0, zeros H1 W1, zeros H2 W2] W0 NUM_CHANNELS y x c d = .ok d := by
    intro y x c d hy hx hc hd
    subst hd
    have hidx := offset_lt (W := W0) (H := H0) hc hy hx
    simp [store_sample, read3_zeros hH1 hW1 hH2 hW2 hc hy hx, hidx, set_replicate_zero]
  have hchan : ∀ y x d, y < H0 → x < W0 → d = List.replicate (H0 * W0 * NUM_CHANNELS) 0 →
      forFrom (fun c data =>
        store_sample [zeros H0 W0, zeros H1 W1, zeros H2 W2] W0 NUM_CHANNELS y x c data)
        NUM_CHANNELS 0 d = .ok d := by
    intro y x d hy hx hd
    obtain ⟨d1, e1, e2⟩ := forFrom_invariant
      (fun c data =>
        store_sample [zeros H0 W0, zeros H1 W1, zeros H2 W2] W0 NUM_CHANNELS y x c data)
      (fun _ data => data = List.replicate (H0 * W0 * NUM_CHANNELS) 0) NUM_CHANNELS 0 d hd
      (fun j t _ hj ht => ⟨t, hstore y x j t hy hx (by omega) ht, ht⟩)
    rw [e1, e2, hd]
  have hcol : ∀ y d, y < H0 → d = List.replicate (H0 * W0 * NUM_CHANNELS) 0 →
      forFrom (fun x data => forFrom (fun c data =>
        store_sample [zeros H0 W0, zeros H1 W1, zeros H2 W2] W0 NUM_CHANNELS y x c data)
        NUM_CHANNELS 0 data) W0 0 d = .ok d := by
    intro y d hy hd
    obtain ⟨d1, e1, e2⟩ := forFrom_invariant
      (fun x data => forFrom (fun c data =>
        store_sample [zeros H0 W0, zeros H1 W1, zeros H2 W2] W0 NUM_CHANNELS y x c data)
        NUM_CHANNELS 0 data)
      (fun _ data => data = List.replicate (H0 * W0 * NUM_CHANNELS) 0) W0 0 d hd
      (fun j t _ hj ht => ⟨t, hchan y j t hy (by omega) ht, ht⟩)
    rw [e1, e2, hd]
  obtain ⟨d1, e1, e2⟩ := forFrom_invariant
    (fun y data => forFrom (fun x data => forFrom (fun c data =>
      store_sample [zeros H0 W0, zeros H1 W1, zeros H2 W2] W0 NUM_CHANNELS y x c data)
      NUM_CHANNELS 0 data) W0 0 data)
    (fun _ data => data = List.replicate (H0 * W0 * NUM_CHANNELS) 0) H0 0
    (List.replicate (H0 * W0 * NUM_CHANNELS) 0) rfl
    (fun j t _ hj ht => ⟨t, hcol j t (by omega) ht, ht⟩)
  have hrow : (zeros H0 W0)[0]? = some (List.replicate W0 0) := by
    simp [zeros, List.getElem?_replicate, h0]
  have hlen3 : [zeros H0 W0, zeros H1 W1, zeros H2 W2].length = NUM_CHANNELS := rfl
  have hz : (zeros H0 W0).length = H0 := by simp [zeros]
  unfold write_image
  simp only [List.getElem?_cons_zero, hrow, List.length_replicate, hlen3, hz]
  rw [e1, e2]

/-! ## Claims about truncation, channels, bounds and the rows written -/

/-- C11 (evaluation at a failing input). On the 5 x 5 grid whose only non-zero sample is
49 (resp. 127) at the centre, with kernel size 5, the neighbourhood of the written
position `(2, 2)` holds exactly that one non-zero sample and the specification's mean is
`49 / 25 = 1` (resp. `127 / 25 = 5`).  The code sums row 0 of the window only, finds 0,
stores 0 at `(2, 2)` and stops at the read of `image[0][5]` in column 3. -/
theorem apply_box_blur_single_sample_lost :
    apply_box_blur
        [[0, 0, 0, 0, 0], [0, 0, 0, 0, 0], [0, 0, 49, 0, 0], [0, 0, 0, 0, 0], [0, 0, 0, 0, 0]] 5
      = .undefined .outOfRange (zeros 5 5) ∧
    spec_mean
        [[0, 0, 0, 0, 0], [0, 0, 0, 0, 0], [0, 0, 49, 0, 0], [0, 0, 0, 0, 0], [0, 0, 0, 0, 0]]
        5 2 2 = some 1 ∧
    apply_box_blur
        [[0, 0, 0, 0, 0], [0, 0, 0, 0, 0], [0, 0, 127, 0, 0], [0, 0, 0, 0, 0], [0, 0, 0, 0, 0]] 5
      = .undefined .outOfRange (zeros 5 5) ∧
    spec_mean
        [[0, 0, 0, 0, 0], [0, 0, 0, 0, 0], [0, 0, 127, 0, 0], [0, 0, 0, 0, 0], [0, 0, 0, 0, 0]]
        5 2 2 = some 5 := by
  decide

/-- C13 (evaluation at a failing input). On the 5 x 5 grid filled with 9, with kernel
size 5 (so `k ≤ min(H, W)`), the column loop visits columns 2 and 3; at column 3 the
window reads `image[0][1]` to `image[0][5]`, and column 5 is outside row 0. -/
theorem apply_box_blur_reads_out_of_range :
    apply_box_blur (List.replicate 5 (List.replicate 5 9)) 5
      = .undefined .outOfRange
        [[0, 0, 0, 0, 0], [0, 0, 0, 0, 0], [0, 0, 1, 0, 0], [0, 0, 0, 0, 0], [0, 0, 0, 0, 0]] ∧
    readSample (List.replicate 5 (List.replicate 5 9)) 0 5 = .error .outOfRange := by
  refine ⟨by decide, rfl⟩

/-- C14 (counterexample). The R grid is 1 x 1, the G and B grids are 2 x 2: the channel
grids do not share their dimensions, and the pipeline raises no error; it filters each
channel and `write_image` produces a buffer of three bytes. -/
theorem process_image_mixed_dimensions :
    Rect 1 1 [[7]] ∧ Rect 2 2 [[1, 2], [3, 4]] ∧ Rect 2 2 [[5, 6], [7, 8]] ∧
    process_image [[[7]], [[1, 2], [3, 4]], [[5, 6], [7, 8]]] = .ok [0, 0, 0] := by
  refine ⟨by decide, by decide, by decide, rfl⟩

/-- C14 (amended). For every 3-channel image whose grids are rectangular, have at least
one row and are each too small for an iteration of the 5 x 5 filter loops (fewer than 4
rows or fewer than 4 columns), and whose G and B grids are at least as tall and as wide
as the R grid: whether or not the grids share their dimensions, the pipeline raises no
error, and `write_image` produces the buffer of `3 * W0 * H0` zero bytes, `H0 x W0` being
the dimensions of the R grid. -/
theorem process_image_no_dimension_check (r g b : single_channel_image_t)
    (H0 W0 H1 W1 H2 W2 : Nat) (hr : Rect H0 W0 r) (hg : Rect H1 W1 g) (hb : Rect H2 W2 b)
    (h0 : 0 < H0) (hs0 : H0 < 4 ∨ W0 < 4) (hs1 : H1 < 4 ∨ W1 < 4) (hs2 : H2 < 4 ∨ W2 < 4)
    (hH1 : H0 ≤ H1) (hW1 : W0 ≤ W1) (hH2 : H0 ≤ H2) (hW2 : W0 ≤ W2) :
    process_image [r, g, b] = .ok (List.replicate (3 * W0 * H0) 0) := by
  have hidle : ∀ (ch : single_channel_image_t) (H W : Nat), Rect H W ch → 0 < H →
      (H < 4 ∨ W < 4) → apply_box_blur ch FILTER_SIZE = .returned (zeros H W) := by
    intro ch H W hch hH hsmall
    apply apply_box_blur_idle ch FILTER_SIZE hch hH
    have : FILTER_SIZE.tdiv 2 = 2 := by decide
    rw [this]
    omega
  have e0 := hidle r H0 W0 hr h0 hs0
  have e1 := hidle g H1 W1 hg (by omega) hs1
  have e2 := hidle b H2 W2 hb (by omega) hs2
  have hsize : 3 * W0 * H0 = H0 * W0 * NUM_CHANNELS := by unfold NUM_CHANNELS; ring
  have hfilter : filter_channels [r, g, b]
      = .ok [zeros H0 W0, zeros H1 W1, zeros H2 W2] := by
    simp [filter_channels, forFrom, filter_channel, NUM_CHANNELS, e0, e1, e2]
  unfold process_image
  rw [hfilter]
  simp only
  rw [write_image_zeros h0 hH1 hW1 hH2 hW2, hsize]

/-- Witness of the amended C14 on the image of the counterexample. -/
theorem process_image_no_dimension_check_witness :
    process_image [[[7]], [[1, 2], [3, 4]], [[5, 6], [7, 8]]]
      = .ok (List.replicate (3 * 1 * 1) 0) :=
  process_image_no_dimension_check [[7]] [[1, 2], [3, 4]] [[5, 6], [7, 8]] 1 1 2 2 2 2
    (by decide) (by decide) (by decide) (by decide) (by decide) (by decide) (by decide)
    (by decide) (by decide) (by decide) (by decide)

/-- C15 (evaluation at a failing input). The decoder result is width 1, height 2,
4 components per pixel and the buffer `[1, 2, 3, 4, 5, 6, 7, 8]` (two RGBA pixels).
Component 0 of pixel `(x, y) = (0, 1)` is `buffer[(1 * 1 + 0) * 4 + 0] = 5`; the loops of
`load_image` step through the buffer three bytes per pixel and put `buffer[3] = 4`, the
alpha byte of the first pixel, at `(c, y, x) = (0, 1, 0)`. -/
theorem load_image_three_byte_stride :
    load_image 1 2 [1, 2, 3, 4, 5, 6, 7, 8] = .ok [[[1], [4]], [[2], [5]], [[3], [6]]] ∧
    read3 [[[1], [4]], [[2], [5]], [[3], [6]]] 0 1 0 = some 4 ∧
    [1, 2, 3, 4, 5, 6, 7, 8][(1 * 1 + 0) * 4 + 0]? = some 5 := by
  refine ⟨rfl, rfl, rfl⟩

/-- C17. For every rectangular `H x W` grid of 8-bit samples with a row 0, every odd
kernel size `k ≥ 1` with `pad = k / 2` and `H ≥ 2 * pad`, and every column `c` with
`pad ≤ c` and `c + pad < W`, position `(pad, c)` of the `result` grid of `apply_box_blur`
holds `(image[0][c - pad] + ... + image[0][c + pad]) / (k * k)`: only the `k` samples of
row 0 of the window are added. -/
theorem apply_box_blur_row_pad_value (image : single_channel_image_t) (H W k : Nat)
    (hrect : Rect H W image) (hs : Samples8 image) (hH : 0 < H) (hk : 1 ≤ k)
    (hodd : k % 2 = 1) (hrows : 2 * (k / 2) ≤ H) (c : Nat) (hc1 : k / 2 ≤ c)
    (hc2 : c + k / 2 < W) :
    sampleAt (apply_box_blur image (k : Int)).grid (k / 2) c
      = some (top_row_sum image (c - k / 2) k / (k * k)) := by
  have hkp : k = 2 * (k / 2) + 1 := by omega
  have hpH : k / 2 < H := by omega
  by_cases hfit : (k : Int) * (k : Int) ≤ INT_MAX
  · have h := apply_box_blur_rowPadDone_fit hs hrect (k / 2) k hkp hfit hpH hrows
    exact h.2 c hc1 (by omega) hc2
  · have hbig : INT_MAX < (k : Int) * (k : Int) := by omega
    rw [apply_box_blur_overflow (k : Int) hrect hH hbig, sampleAt_zeros hpH (by omega)]
    have hle : top_row_sum image (c - k / 2) k ≤ 255 * k := top_row_sum_le hs _ _
    have hk255 : 255 < k := by
      by_contra hsmall
      have h1 : (k : Int) * (k : Int) ≤ 255 * 255 := by
        apply mul_le_mul <;> omega
      unfold INT_MAX at hbig
      omega
    have hlt : top_row_sum image (c - k / 2) k < k * k := by
      calc top_row_sum image (c - k / 2) k ≤ 255 * k := hle
        _ < k * k := Nat.mul_lt_mul_of_pos_right hk255 (by omega)
    rw [Nat.div_eq_of_lt hlt]

/-- Witness of C17 on a 5 x 5 grid with kernel size 3 at column 2, where the stored value
is `(20 + 30 + 40) / 9 = 10`. -/
theorem apply_box_blur_row_pad_value_witness :
    top_row_sum
        [[10, 20, 30, 40, 50], [60, 70, 80, 90, 100], [110, 120, 130, 140, 150],
         [160, 170, 180, 190, 200], [210, 220, 230, 240, 250]] (2 - 3 / 2) 3 / (3 * 3) = 10 ∧
    sampleAt (apply_box_blur
        [[10, 20, 30, 40, 50], [60, 70, 80, 90, 100], [110, 120, 130, 140, 150],
         [160, 170, 180, 190, 200], [210, 220, 230, 240, 250]] ((3 : Nat) : Int)).grid (3 / 2) 2
      = some (top_row_sum
        [[10, 20, 30, 40, 50], [60, 70, 80, 90, 100], [110, 120, 130, 140, 150],
         [160, 170, 180, 190, 200], [210, 220, 230, 240, 250]] (2 - 3 / 2) 3 / (3 * 3)) :=
  ⟨by decide, apply_box_blur_row_pad_value
    [[10, 20, 30, 40, 50], [60, 70, 80, 90, 100], [110, 120, 130, 140, 150],
     [160, 170, 180, 190, 200], [210, 220, 230, 240, 250]] 5 5 3
    (by decide) (by decide) (by decide) (by decide) (by decide) (by decide) 2
    (by decide) (by decide)⟩

/-! ## The reading without bounds checks: only row `pad` is written -/

/-- An unchecked write either leaves the grid as it is or is the checked write. -/
theorem unchecked_writeSample_cases {g g1 : single_channel_image_t} {r c : Int} {v : Nat}
    (hw : Unchecked.writeSample g r c v = some g1) :
    g1 = g ∨ writeSample g r c v = some g1 := by
  unfold Unchecked.writeSample at hw
  unfold writeSample
  cases hrow : elemAt g r with
  | none => simp [hrow] at hw
  | some row =>
    simp only [hrow] at hw ⊢
    cases hv : elemAt row c with
    | none =>
      simp only [hv, Option.some.injEq] at hw
      exact Or.inl hw.symm
    | some v0 =>
      simp only [hv] at hw ⊢
      exact Or.inr hw

theorem unchecked_pixel_body_cases (beyond : Int → Int → Nat) (image : single_channel_image_t)
    (k pad ir ic : Int) (g : single_channel_image_t) :
    (∃ f, Unchecked.pixel_body beyond image k pad ir ic g = .error (f, g)) ∨
    (∃ v g1, Unchecked.pixel_body beyond image k pad ir ic g = .ok g1 ∧
      Unchecked.writeSample g ir ic v = some g1) := by
  unfold Unchecked.pixel_body
  cases Unchecked.window_sum beyond image pad ir ic with
  | error f => exact Or.inl ⟨f, rfl⟩
  | ok sum =>
    cases checkedInt (k * k) with
    | error f => exact Or.inl ⟨f, rfl⟩
    | ok d =>
      by_cases hd : d = 0
      · simp only [hd, if_true]; exact Or.inl ⟨_, rfl⟩
      · simp only [hd, if_false]
        cases hw : Unchecked.writeSample g ir ic (toUInt8 (sum.tdiv d)) with
        | none => exact Or.inl ⟨_, rfl⟩
        | some g2 => exact Or.inr ⟨_, g2, rfl, hw⟩

theorem unchecked_col_loop_counter (beyond : Int → Int → Nat) (image : single_channel_image_t)
    (k pad ir : Int) :
    ∀ (n : Nat) (ic : Int) (g g1 : single_channel_image_t) (ic1 : Int),
      Unchecked.col_loop beyond image k pad ir n ic g = .ok (g1, ic1) → ic1 = ic + n := by
  intro n
  induction n with
  | zero =>
    intro ic g g1 ic1 h
    simp only [Unchecked.col_loop, Except.ok.injEq, Prod.mk.injEq] at h
    simp [← h.2]
  | succ n ih =>
    intro ic g g1 ic1 h
    simp only [Unchecked.col_loop] at h
    cases hb : Unchecked.pixel_body beyond image k pad ir ic g with
    | error e => simp [hb] at h
    | ok g2 =>
      simp only [hb] at h
      have := ih (ic + 1) g2 g1 ic1 h
      push_cast
      omega

theorem unchecked_otherRowsZero_write {H W : Nat} {ir ic : Int} {v : Nat}
    {g g1 : single_channel_image_t} (hg : OtherRowsZero H W ir g)
    (hw : Unchecked.writeSample g ir ic v = some g1) : OtherRowsZero H W ir g1 := by
  rcases unchecked_writeSample_cases hw with h | h
  · rw [h]; exact hg
  · exact otherRowsZero_write hg h

theorem unchecked_col_loop_otherRowsZero {H W : Nat} (beyond : Int → Int → Nat)
    (image : single_channel_image_t) (k pad ir : Int) :
    ∀ (n : Nat) (ic : Int) (g : single_channel_image_t), OtherRowsZero H W ir g →
      (∀ g1 ic1, Unchecked.col_loop beyond image k pad ir n ic g = .ok (g1, ic1) →
        OtherRowsZero H W ir g1) ∧
      (∀ f g1, Unchecked.col_loop beyond image k pad ir n ic g = .error (f, g1) →
        OtherRowsZero H W ir g1) := by
  intro n
  induction n with
  | zero =>
    intro ic g hg
    simp only [Unchecked.col_loop]
    refine ⟨?_, by simp⟩
    intro g1 ic1 h
    simp only [Except.ok.injEq, Prod.mk.injEq] at h
    rw [← h.1]; exact hg
  | succ n ih =>
    intro ic g hg
    simp only [Unchecked.col_loop]
    rcases unchecked_pixel_body_cases beyond image k pad ir ic g with ⟨f, hb⟩ | ⟨v, g2, hb, hw⟩
    · rw [hb]
      refine ⟨by simp, ?_⟩
      intro f1 g1 h
      simp only [Except.error.injEq, Prod.mk.injEq] at h
      rw [← h.2]; exact hg
    · rw [hb]
      exact ih (ic + 1) g2 (unchecked_otherRowsZero_write hg hw)

/-- When the column bound is already passed, no row of the row loop does anything. -/
theorem unchecked_row_loop_idle (beyond : Int → Int → Nat) (image : single_channel_image_t)
    (k width pad ic : Int) (g : single_channel_image_t) (h : width - pad + 1 - ic ≤ 0) :
    ∀ (n : Nat) (ir : Int),
      Unchecked.row_loop beyond image k width pad n ir ic g = .ok (g, ic) := by
  intro n
  induction n with
  | zero => intro ir; rfl
  | succ n ih =>
    intro ir
    simp only [Unchecked.row_loop, Int.toNat_eq_zero.2 h, Unchecked.col_loop]
    exact ih (ir + 1)

/-- The row loop started in row `pad` with `initial_col = pad` writes in row `pad` only,
also when the run goes on past the end of row 0: after the first row the column counter
stands past its bound, and it is never reset. -/
theorem unchecked_row_loop_otherRowsZero {H W : Nat} (beyond : Int → Int → Nat)
    (image : single_channel_image_t) (k pad : Int) (n : Nat) (g : single_channel_image_t)
    (hg : OtherRowsZero H W pad g) :
    (∀ g1 ic1, Unchecked.row_loop beyond image k W pad n pad pad g = .ok (g1, ic1) →
      OtherRowsZero H W pad g1) ∧
    (∀ f g1, Unchecked.row_loop beyond image k W pad n pad pad g = .error (f, g1) →
      OtherRowsZero H W pad g1) := by
  cases n with
  | zero =>
    simp only [Unchecked.row_loop]
    refine ⟨?_, by simp⟩
    intro g1 ic1 h
    simp only [Except.ok.injEq, Prod.mk.injEq] at h
    rw [← h.1]; exact hg
  | succ n =>
    obtain ⟨cok, cerr⟩ := unchecked_col_loop_otherRowsZero (H := H) (W := W) beyond image k
      pad pad ((W : Int) - pad + 1 - pad).toNat pad g hg
    simp only [Unchecked.row_loop]
    cases hb : Unchecked.col_loop beyond image k pad pad
        ((W : Int) - pad + 1 - pad).toNat pad g with
    | error e =>
      obtain ⟨f, g2⟩ := e
      refine ⟨by simp, ?_⟩
      intro f1 g1 h
      simp only [Except.error.injEq, Prod.mk.injEq] at h
      rw [← h.2]; exact cerr f g2 hb
    | ok res =>
      obtain ⟨g2, ic2⟩ := res
      have hic2 := unchecked_col_loop_counter beyond image k pad pad _ _ _ _ _ hb
      have hpast : (W : Int) - pad + 1 - ic2 ≤ 0 := by
        have := Int.self_le_toNat ((W : Int) - pad + 1 - pad)
        omega
      simp only
      rw [unchecked_row_loop_idle beyond image k W pad ic2 g2 hpast n (pad + 1)]
      refine ⟨?_, by simp⟩
      intro g1 ic1 h
      simp only [Except.ok.injEq, Prod.mk.injEq] at h
      rw [← h.1]; exact cok g2 ic2 hb

/-- In a build without bounds checks too, the `result` vector of every call on a
rectangular grid holds zero outside row `pad`. -/
theorem unchecked_apply_box_blur_otherRowsZero {H W : Nat} {image : single_channel_image_t}
    (beyond : Int → Int → Nat) (k : Int) (hrect : Rect H W image) :
    OtherRowsZero H W (k.tdiv 2) (Unchecked.apply_box_blur beyond image k).grid := by
  cases image with
  | nil =>
    have hH : H = 0 := by simpa [Rect] using hrect.1.symm
    subst hH
    refine ⟨by simp [Unchecked.apply_box_blur, Outcome.grid, Rect], ?_⟩
    intro r c hr
    omega
  | cons row0 rest =>
    have hW : row0.length = W := hrect.2 row0 (by simp)
    have hH : (row0 :: rest).length = H := hrect.1
    subst hW
    subst hH
    obtain ⟨rok, rerr⟩ := unchecked_row_loop_otherRowsZero (H := (row0 :: rest).length)
      (W := row0.length) beyond (row0 :: rest) k (k.tdiv 2)
      ((((row0 :: rest).length : Nat) : Int) - k.tdiv 2 + 1 - k.tdiv 2).toNat
      (zeros (row0 :: rest).length row0.length) (otherRowsZero_zeros _ _ _)
    simp only [Unchecked.apply_box_blur]
    cases hb : Unchecked.row_loop beyond (row0 :: rest) k (row0.length : Int) (k.tdiv 2)
        ((((row0 :: rest).length : Nat) : Int) - k.tdiv 2 + 1 - k.tdiv 2).toNat (k.tdiv 2) (k.tdiv 2)
        (zeros (row0 :: rest).length row0.length) with
    | error e =>
      obtain ⟨f, g⟩ := e
      exact rerr f g hb
    | ok res =>
      obtain ⟨g, ic⟩ := res
      exact rok g ic hb

/-! ## The reading without bounds checks: the call returns -/

/-- A read in an existing row yields a byte, inside the row or beyond its end. -/
theorem unchecked_readSample_byte (beyond : Int → Int → Nat) {image : single_channel_image_t}
    (hs : Samples8 image) {r : Int} {row : List Nat} (hrow : elemAt image r = some row)
    (c : Int) : ∃ v, Unchecked.readSample beyond image r c = .ok v ∧ v < 256 := by
  cases hv : elemAt row c with
  | none =>
    exact ⟨beyond r c % 256, by simp [Unchecked.readSample, hrow, hv],
      Nat.mod_lt _ (by omega)⟩
  | some v =>
    exact ⟨v, by simp [Unchecked.readSample, hrow, hv],
      hs row (elemAt_mem hrow) v (elemAt_mem hv)⟩

/-- The inner window loop on an existing row completes and adds at most 255 per
iteration. -/
theorem unchecked_filter_col_loop_ok (beyond : Int → Int → Nat)
    {image : single_channel_image_t} (hs : Samples8 image) (ir ic fr : Int) (row : List Nat)
    (hrow : elemAt image (ir + fr) = some row) :
    ∀ (n : Nat) (sum fc : Int), 0 ≤ sum → sum + 255 * (n : Int) ≤ INT_MAX →
      ∃ s, Unchecked.filter_col_loop beyond image ir ic fr n sum fc = .ok (s, fc + n) ∧
        sum ≤ s ∧ s ≤ sum + 255 * (n : Int) := by
  intro n
  induction n with
  | zero =>
    intro sum fc _ _
    exact ⟨sum, by simp [Unchecked.filter_col_loop], le_refl _, by simp⟩
  | succ n ih =>
    intro sum fc h0 hmax
    obtain ⟨v, hread, hv⟩ := unchecked_readSample_byte beyond hs hrow (ic + fc)
    have hin : INT_MIN ≤ sum + (v : Int) ∧ sum + (v : Int) ≤ INT_MAX := by
      unfold INT_MIN; unfold INT_MAX at hmax ⊢
      push_cast at hmax
      omega
    have hmax2 : sum + (v : Int) + 255 * (n : Int) ≤ INT_MAX := by
      unfold INT_MAX at hmax ⊢
      push_cast at hmax
      omega
    obtain ⟨s, h1, h2, h3⟩ := ih (sum + v) (fc + 1) (by omega) hmax2
    refine ⟨s, ?_, by omega, by push_cast; omega⟩
    simp only [Unchecked.filter_col_loop, hread, checkedInt, hin, and_self, if_true, h1]
    congr 2
    push_cast
    omega

theorem unchecked_filter_row_loop_idle (beyond : Int → Int → Nat)
    (image : single_channel_image_t) (pad ir ic sum fc : Int) (h : pad + 1 - fc ≤ 0) :
    ∀ (n : Nat) (fr : Int),
      Unchecked.filter_row_loop beyond image pad ir ic n fr sum fc = .ok (sum, fc) := by
  intro n
  induction n with
  | zero => intro fr; rfl
  | succ n ih =>
    intro fr
    simp only [Unchecked.filter_row_loop, Int.toNat_eq_zero.2 h, Unchecked.filter_col_loop]
    exact ih (fr + 1)

/-- In row `pad` the window loops read row 0 only and complete. -/
theorem unchecked_window_sum_ok (beyond : Int → Int → Nat) {image : single_channel_image_t}
    (hs : Samples8 image) (row0 : List Nat) (rest : single_channel_image_t)
    (himg : image = row0 :: rest) (pad c : Int) (hpad : 0 ≤ pad)
    (hfit : 255 * (2 * pad + 1) ≤ INT_MAX) :
    ∃ s, Unchecked.window_sum beyond image pad pad c = .ok s := by
  have hcount : (pad + 1 - -pad).toNat = (2 * pad).toNat + 1 := by omega
  have hrow : elemAt image (pad + -pad) = some row0 := by
    rw [himg]; simp [elemAt]
  have hmax : (0 : Int) + 255 * (((2 * pad).toNat + 1 : Nat) : Int) ≤ INT_MAX := by
    unfold INT_MAX at hfit ⊢
    push_cast
    omega
  obtain ⟨s, h1, _, _⟩ := unchecked_filter_col_loop_ok beyond hs pad c (-pad) row0 hrow
    ((2 * pad).toNat + 1) 0 (-pad) (le_refl _) hmax
  refine ⟨s, ?_⟩
  unfold Unchecked.window_sum
  rw [hcount]
  simp only [Unchecked.filter_row_loop, hcount, h1]
  rw [unchecked_filter_row_loop_idle _ _ _ _ _ _ _ (by push_cast; omega)]

/-- An unchecked write into an existing row succeeds and keeps the shape. -/
theorem unchecked_writeSample_ok {H W : Nat} {g : single_channel_image_t} (hg : Rect H W g)
    {r : Int} (hr0 : 0 ≤ r) (hr : r < H) (c : Int) (v : Nat) :
    ∃ g1, Unchecked.writeSample g r c v = some g1 ∧ Rect H W g1 := by
  have hr1 : r.toNat < g.length := by rw [hg.1]; omega
  have hrow : elemAt g r = some g[r.toNat] := by
    unfold elemAt
    rw [if_pos hr0, List.getElem?_eq_getElem hr1]
  cases hv : elemAt g[r.toNat] c with
  | none => exact ⟨g, by simp [Unchecked.writeSample, hrow, hv], hg⟩
  | some v0 =>
    have hw : writeSample g r c v = some (g.set r.toNat (g[r.toNat].set c.toNat v)) := by
      simp [writeSample, hrow, hv]
    refine ⟨g.set r.toNat (g[r.toNat].set c.toNat v), ?_, ?_⟩
    · simp [Unchecked.writeSample, hrow, hv]
    · exact (writeSample_spec hg hw).2.2.2.2.1

/-- The loop body in row `pad` completes. -/
theorem unchecked_pixel_body_ok {H W : Nat} (beyond : Int → Int → Nat)
    {image : single_channel_image_t} (hs : Samples8 image) (row0 : List Nat)
    (rest : single_channel_image_t) (himg : image = row0 :: rest) (k pad : Int)
    (hpad : 0 ≤ pad) (hpH : pad < H) (hk : 0 < k) (hsq : k * k ≤ INT_MAX)
    (hfit : 255 * (2 * pad + 1) ≤ INT_MAX) (ic : Int) (g : single_channel_image_t)
    (hg : Rect H W g) :
    ∃ g1, Unchecked.pixel_body beyond image k pad pad ic g = .ok g1 ∧ Rect H W g1 := by
  obtain ⟨s, hwin⟩ := unchecked_window_sum_ok beyond hs row0 rest himg pad ic hpad hfit
  have hpos : 0 < k * k := by positivity
  have hin : INT_MIN ≤ k * k ∧ k * k ≤ INT_MAX := by
    refine ⟨?_, hsq⟩
    unfold INT_MIN
    omega
  have hne : ¬ (k * k = 0) := by omega
  obtain ⟨g1, hw, hrect⟩ := unchecked_writeSample_ok hg hpad hpH ic (toUInt8 (s.tdiv (k * k)))
  refine ⟨g1, ?_, hrect⟩
  simp only [Unchecked.pixel_body, hwin, checkedInt, hin, and_self, if_true, hne, if_false, hw]

theorem unchecked_col_loop_ok {H W : Nat} (beyond : Int → Int → Nat)
    {image : single_channel_image_t} (hs : Samples8 image) (row0 : List Nat)
    (rest : single_channel_image_t) (himg : image = row0 :: rest) (k pad : Int)
    (hpad : 0 ≤ pad) (hpH : pad < H) (hk : 0 < k) (hsq : k * k ≤ INT_MAX)
    (hfit : 255 * (2 * pad + 1) ≤ INT_MAX) :
    ∀ (n : Nat) (ic : Int) (g : single_channel_image_t), Rect H W g →
      ∃ g1, Unchecked.col_loop beyond image k pad pad n ic g = .ok (g1, ic + n) ∧
        Rect H W g1 := by
  intro n
  induction n with
  | zero =>
    intro ic g hg
    exact ⟨g, by simp [Unchecked.col_loop], hg⟩
  | succ n ih =>
    intro ic g hg
    obtain ⟨g2, hb, hg2⟩ := unchecked_pixel_body_ok beyond hs row0 rest himg k pad hpad hpH
      hk hsq hfit ic g hg
    obtain ⟨g1, h1, hg1⟩ := ih (ic + 1) g2 hg2
    refine ⟨g1, ?_, hg1⟩
    simp only [Unchecked.col_loop, hb, h1]
    congr 2
    push_cast
    omega

/-- A kernel size whose square is an `int` value is at most 46340. -/
theorem kernel_le_of_square_fits {k : Int} (hsq : k * k ≤ INT_MAX) : k ≤ 46340 := by
  by_contra h
  have h1 : (46341 : Int) * 46341 ≤ k * k := by
    apply mul_le_mul <;> omega
  unfold INT_MAX at hsq
  omega

/-- In a build without bounds checks, the call on a grid of 8-bit samples that has a row
returns a grid of the same shape, whenever `filter_size * filter_size` is an `int`
value. -/
theorem unchecked_apply_box_blur_returns {H W : Nat} (beyond : Int → Int → Nat)
    {image : single_channel_image_t} (k : Int) (hrect : Rect H W image) (hs : Samples8 image)
    (hH : 0 < H) (hk : 0 < k) (hsq : k * k ≤ INT_MAX) :
    ∃ g, Unchecked.apply_box_blur beyond image k = .returned g ∧ Rect H W g := by
  cases himg : image with
  | nil =>
    have : H = 0 := by rw [himg] at hrect; simpa [Rect] using hrect.1.symm
    omega
  | cons row0 rest =>
    rw [← himg]
    have hW : row0.length = W := hrect.2 row0 (by rw [himg]; simp)
    have hL : image.length = H := hrect.1
    have hpadeq : k.tdiv 2 = k / 2 := Int.tdiv_eq_ediv (by omega) (by omega)
    have hk46 := kernel_le_of_square_fits hsq
    have hfit : 255 * (2 * (k / 2) + 1) ≤ INT_MAX := by unfold INT_MAX; omega
    have happ : Unchecked.apply_box_blur beyond image k =
        match Unchecked.row_loop beyond image k (W : Int) (k / 2)
            ((H : Int) - k / 2 + 1 - k / 2).toNat (k / 2) (k / 2) (zeros H W) with
        | .error (f, g) => .undefined f g
        | .ok (g, _) => .returned g := by
      rw [himg]
      simp only [Unchecked.apply_box_blur]
      rw [← himg, hpadeq, hW, hL]
    rw [happ]
    cases hn : ((H : Int) - k / 2 + 1 - k / 2).toNat with
    | zero => exact ⟨zeros H W, rfl, rect_zeros H W⟩
    | succ n =>
      have hpH : k / 2 < (H : Int) := by omega
      obtain ⟨g1, hcol, hg1⟩ := unchecked_col_loop_ok (H := H) (W := W) beyond hs row0 rest
        himg k (k / 2) (by omega) hpH hk hsq hfit
        ((W : Int) - k / 2 + 1 - k / 2).toNat (k / 2) (zeros H W) (rect_zeros H W)
      have hpast : (W : Int) - k / 2 + 1
          - (k / 2 + ((((W : Int) - k / 2 + 1 - k / 2).toNat : Nat) : Int)) ≤ 0 := by
        have := Int.self_le_toNat ((W : Int) - k / 2 + 1 - k / 2)
        omega
      refine ⟨g1, ?_, hg1⟩
      simp only [Unchecked.row_loop, hcol]
      rw [unchecked_row_loop_idle beyond image k W (k / 2) _ g1 hpast]

/-- Without bounds checks the channel loop on an image of three non-empty grids of 8-bit
samples completes, and slot `i` of its output is what the call on channel `i` returns. -/
theorem unchecked_filter_channels_eq (beyond : Nat → Int → Int → Nat) (a : image_t)
    (H W : Nat) (ha : Shape3 H W a) (hH : 0 < H) (hsa : ∀ g ∈ a, Samples8 g) :
    ∃ g0 g1 g2 x y z, a = [x, y, z] ∧
      Unchecked.apply_box_blur (beyond 0) x FILTER_SIZE = .returned g0 ∧
      Unchecked.apply_box_blur (beyond 1) y FILTER_SIZE = .returned g1 ∧
      Unchecked.apply_box_blur (beyond 2) z FILTER_SIZE = .returned g2 ∧
      Unchecked.filter_channels beyond a = .ok [g0, g1, g2] := by
  obtain ⟨hlen, hrect⟩ := ha
  unfold NUM_CHANNELS at hlen
  obtain ⟨x, y, z, rfl⟩ := List.length_eq_three.1 hlen
  have h5 : (0 : Int) < FILTER_SIZE := by decide
  have h25 : FILTER_SIZE * FILTER_SIZE ≤ INT_MAX := by decide
  obtain ⟨g0, e0, _⟩ := unchecked_apply_box_blur_returns (beyond 0) FILTER_SIZE
    (hrect x (by simp)) (hsa x (by simp)) hH h5 h25
  obtain ⟨g1, e1, _⟩ := unchecked_apply_box_blur_returns (beyond 1) FILTER_SIZE
    (hrect y (by simp)) (hsa y (by simp)) hH h5 h25
  obtain ⟨g2, e2, _⟩ := unchecked_apply_box_blur_returns (beyond 2) FILTER_SIZE
    (hrect z (by simp)) (hsa z (by simp)) hH h5 h25
  refine ⟨g0, g1, g2, x, y, z, rfl, e0, e1, e2, ?_⟩
  simp [Unchecked.filter_channels, forFrom, Unchecked.filter_channel, NUM_CHANNELS, e0, e1, e2]

/-- Without bounds checks, two images that hold the same grid in channel `i` get the same
grid in slot `i` of the output when the bytes after their rows are the same: apart from
those bytes, output channel `i` depends on input channel `i` only. -/
theorem unchecked_filter_channels_same_channel (beyond : Nat → Int → Int → Nat)
    (a b : image_t) (H W : Nat) (ha : Shape3 H W a) (hb : Shape3 H W b) (hH : 0 < H)
    (hsa : ∀ g ∈ a, Samples8 g) (hsb : ∀ g ∈ b, Samples8 g) (i : Nat)
    (hi : i < NUM_CHANNELS) (hsame : a[i]? = b[i]?) :
    ∃ oa ob, Unchecked.filter_channels beyond a = .ok oa ∧
      Unchecked.filter_channels beyond b = .ok ob ∧ oa[i]? = ob[i]? := by
  obtain ⟨g0, g1, g2, x, y, z, rfl, e0, e1, e2, hfa⟩ :=
    unchecked_filter_channels_eq beyond a H W ha hH hsa
  obtain ⟨k0, k1, k2, x1, y1, z1, rfl, f0, f1, f2, hfb⟩ :=
    unchecked_filter_channels_eq beyond b H W hb hH hsb
  refine ⟨_, _, hfa, hfb, ?_⟩
  unfold NUM_CHANNELS at hi
  rcases (by omega : i = 0 ∨ i = 1 ∨ i = 2) with rfl | rfl | rfl
  · simp only [List.getElem?_cons_zero, Option.some.injEq] at hsame
    subst hsame
    rw [e0] at f0
    simp only [Outcome.returned.injEq] at f0
    simp [f0]
  · simp only [List.getElem?_cons_succ, List.getElem?_cons_zero, Option.some.injEq] at hsame
    subst hsame
    rw [e1] at f1
    simp only [Outcome.returned.injEq] at f1
    simp [f1]
  · simp only [List.getElem?_cons_succ, List.getElem?_cons_zero, Option.some.injEq] at hsame
    subst hsame
    rw [e2] at f2
    simp only [Outcome.returned.injEq] at f2
    simp [f2]

/-! ## Claims about the returned grid and the channel loop -/

/-- C3. For every rectangular `H x W` grid of 8-bit samples whose number of samples is
an `int` value, and every odd positive kernel size `k ≤ min(H, W)`: in a build without
bounds checks, whatever bytes lie after the rows, `apply_box_blur` returns a grid with
exactly `H` rows, each of exactly `W` samples.  In the reading with bounds checks the
run stops at the read beyond row 0 (see C13); the `result` vector it holds then has the
same shape. -/
theorem apply_box_blur_returns_dimensions (image : single_channel_image_t) (H W : Nat)
    (k : Int) (hrect : Rect H W image) (hs : Samples8 image)
    (hsize : (H : Int) * (W : Int) ≤ INT_MAX) (hk : 0 < k) (_hodd : k % 2 = 1)
    (hfit : k ≤ min (H : Int) (W : Int)) (beyond : Int → Int → Nat) :
    (∃ g, Unchecked.apply_box_blur beyond image k = .returned g ∧
      g.length = H ∧ ∀ row ∈ g, row.length = W) ∧
    ((apply_box_blur image k).grid.length = H ∧
      ∀ row ∈ (apply_box_blur image k).grid, row.length = W) := by
  have hkH : k ≤ (H : Int) := le_trans hfit (min_le_left _ _)
  have hkW : k ≤ (W : Int) := le_trans hfit (min_le_right _ _)
  have hsq : k * k ≤ INT_MAX := by
    have : k * k ≤ (H : Int) * (W : Int) := by
      apply mul_le_mul hkH hkW <;> omega
    omega
  obtain ⟨g, hret, hg⟩ :=
    unchecked_apply_box_blur_returns beyond k hrect hs (by omega) hk hsq
  exact ⟨⟨g, hret, hg⟩, (apply_box_blur_borderZero k hrect).1⟩

/-- Witness of C3 on a 5 x 5 grid with kernel size 5, the byte after each row being 255:
the call returns the 5 x 5 grid shown. -/
theorem apply_box_blur_returns_dimensions_witness :
    Unchecked.apply_box_blur (fun _ _ => 255) (List.replicate 5 (List.replicate 5 9)) 5
      = .returned
        [[0, 0, 0, 0, 0], [0, 0, 0, 0, 0], [0, 0, 1, 11, 0], [0, 0, 0, 0, 0], [0, 0, 0, 0, 0]] ∧
    ((∃ g, Unchecked.apply_box_blur (fun _ _ => 255) (List.replicate 5 (List.replicate 5 9)) 5
        = .returned g ∧ g.length = 5 ∧ ∀ row ∈ g, row.length = 5) ∧
     ((apply_box_blur (List.replicate 5 (List.replicate 5 9)) 5).grid.length = 5 ∧
      ∀ row ∈ (apply_box_blur (List.replicate 5 (List.replicate 5 9)) 5).grid,
        row.length = 5)) :=
  ⟨by decide, apply_box_blur_returns_dimensions (List.replicate 5 (List.replicate 5 9)) 5 5 5
    (by decide) (by decide) (by decide) (by decide) (by decide) (by decide)
    (fun _ _ => 255)⟩

/-- C16. For every rectangular `H x W` grid and every positive kernel size `k` with
`pad = k / 2`, every sample of the output of `apply_box_blur` in a row other than row
`pad` is 0, in both readings: in a build without bounds checks, whatever bytes lie
after the rows, where the run goes on to the rows after row `pad` and finds the column
counter past its bound; and in the grid held when a build with bounds checks stops. -/
theorem apply_box_blur_only_row_pad (image : single_channel_image_t) (H W : Nat) (k : Int)
    (hrect : Rect H W image) (hk : 0 < k) (r c : Nat) (hr : r < H) (hc : c < W)
    (hne : (r : Int) ≠ k / 2) (beyond : Int → Int → Nat) :
    sampleAt (Unchecked.apply_box_blur beyond image k).grid r c = some 0 ∧
    sampleAt (apply_box_blur image k).grid r c = some 0 := by
  have hpad : k.tdiv 2 = k / 2 := Int.tdiv_eq_ediv (by omega) (by omega)
  have h1 := unchecked_apply_box_blur_otherRowsZero beyond k hrect
  have h2 := apply_box_blur_otherRowsZero k hrect
  rw [hpad] at h1 h2
  exact ⟨h1.2 r c hr hc hne, h2.2 r c hr hc hne⟩

/-- Witness of C16 on a 5 x 5 grid with kernel size 3, at the centre `(2, 2)`: without
bounds checks and with the byte 7 after each row the call returns the grid shown, in
which row 1 is filled up to column 4 and rows 2 to 4 are zero. -/
theorem apply_box_blur_only_row_pad_witness :
    Unchecked.apply_box_blur (fun _ _ => 7)
        [[10, 20, 30, 40, 50], [60, 70, 80, 90, 100], [110, 120, 130, 140, 150],
         [160, 170, 180, 190, 200], [210, 220, 230, 240, 250]] 3
      = .returned
        [[0, 0, 0, 0, 0], [0, 6, 10, 13, 10], [0, 0, 0, 0, 0], [0, 0, 0, 0, 0],
         [0, 0, 0, 0, 0]] ∧
    (sampleAt (Unchecked.apply_box_blur (fun _ _ => 7)
        [[10, 20, 30, 40, 50], [60, 70, 80, 90, 100], [110, 120, 130, 140, 150],
         [160, 170, 180, 190, 200], [210, 220, 230, 240, 250]] 3).grid 2 2 = some 0 ∧
     sampleAt (apply_box_blur
        [[10, 20, 30, 40, 50], [60, 70, 80, 90, 100], [110, 120, 130, 140, 150],
         [160, 170, 180, 190, 200], [210, 220, 230, 240, 250]] 3).grid 2 2 = some 0) :=
  ⟨by decide, apply_box_blur_only_row_pad
    [[10, 20, 30, 40, 50], [60, 70, 80, 90, 100], [110, 120, 130, 140, 150],
     [160, 170, 180, 190, 200], [210, 220, 230, 240, 250]] 5 5 3
    (by decide) (by decide) 2 2 (by decide) (by decide) (by decide) (fun _ _ => 7)⟩

end BoxBlur
